import Mathlib

/-!
Verification of the HyPrism download engine
(`src/internal/util/download/file.go`).

The Go code is shallowly embedded: pure helpers become Lean functions on
`List Char` / `ℚ`; the effectful download procedures become deterministic
functions of an explicit environment (`AttemptEnv`, `EngineEnv`, `SimpleEnv`)
describing the outcomes of every external interaction (file system, HTTP
client, clock), returning the Go result (`Except String Unit`, errors being
the Go error strings) together with a trace of observable side effects
(`List Event`).
-/

namespace HyPrism

/-! ### Pure string helpers (file.go lines 60–99)

Go strings are byte slices; every string these helpers ever receive in the
repository is ASCII, so we model them as `List Char` with `String` wrappers.
-/

/-- `findSubstring` (file.go 92–99): scan every position `i` of `s` and
compare the slice `s[i:i+len(substr)]` against `substr`. -/
def findSubstring : List Char → List Char → Bool
  | s, substr =>
    if substr.length ≤ s.length then
      (decide (s.take substr.length = substr)) ||
        (match s with
          | [] => false
          | _ :: s1 => findSubstring s1 substr)
    else false

/-- `contains` on byte lists (file.go 86–90): length guard, then full match,
or head slice match, or tail slice match, or interior scan.  (The Go comment
says "case-insensitive" but the code compares bytes exactly.) -/
def containsL (s substr : List Char) : Bool :=
  decide (substr.length ≤ s.length) &&
    (decide (s = substr) ||
      (decide (substr.length < s.length) &&
        (decide (s.take substr.length = substr) ||
          decide (s.drop (s.length - substr.length) = substr) ||
          findSubstring s substr)))

/-- `contains` (file.go 86–90) on `String`s. -/
def contains (s substr : String) : Bool :=
  containsL s.toList substr.toList

/-- `isCertError` (file.go 61–67); the Go `error` argument is modeled as
`Option String` (`none` = nil error, `some s` = error whose `Error()` is `s`). -/
def isCertError : Option String → Bool
  | none => false
  | some errStr =>
    contains errStr "certificate" || contains errStr "x509" || contains errStr "tls"

/-- The fixed trusted-domain allow-list (file.go 71–76). -/
def trustedDomains : List String :=
  ["github.com", "githubusercontent.com", "adoptium.net", "itch.zone"]

/-- `isTrustedSource` (file.go 70–83): first-match loop over the allow-list. -/
def isTrustedSource (url : String) : Bool :=
  trustedDomains.any fun domain => contains url domain

/-! ### Speed formatting (file.go 376–384)

`formatSpeed` takes a `float64`; we model the rate as an exact rational and
Go's `%.0f` / `%.1f` verbs as round-half-to-even decimal printing, which
agrees with Go on every value whose decimal digits are exact in `float64`
(in particular on all values the claims mention). -/

/-- Round a rational to the nearest integer, ties to even (the rounding used
by Go's `%.0f`). -/
def roundHalfEven (q : ℚ) : ℤ :=
  let f : ℤ := ⌊q⌋
  let r : ℚ := q - (f : ℚ)
  if r < 1/2 then f
  else if (1:ℚ)/2 < r then f + 1
  else if Even f then f else f + 1

/-- Go `fmt.Sprintf("%.0f", q)` for the rates at hand. -/
def fmtF0 (q : ℚ) : String :=
  toString (roundHalfEven q)

/-- Go `fmt.Sprintf("%.1f", q)` for nonnegative rates: one decimal digit,
round half to even. -/
def fmtF1 (q : ℚ) : String :=
  let n : ℤ := roundHalfEven (q * 10)
  toString (n / 10) ++ "." ++ toString (n % 10)

/-- `formatSpeed` (file.go 376–384). -/
def formatSpeed (bytesPerSec : ℚ) : String :=
  if bytesPerSec < 1024 then
    fmtF0 bytesPerSec ++ " B/s"
  else if bytesPerSec < 1024 * 1024 then
    fmtF1 (bytesPerSec / 1024) ++ " KB/s"
  else
    fmtF1 (bytesPerSec / (1024 * 1024)) ++ " MB/s"

/-! ### Trace model of the effectful download procedures

The procedures interact with the file system, an HTTP client and the clock.
Each interaction's outcome is supplied by an environment record; the
procedure is then a deterministic function returning the Go result
(`Except String Unit`) and the list of observable side effects it performed.
Timestamps are wall-clock milliseconds.  `filepath.Dir dest` and
`filepath.Base dest` are abstracted by carrying `dest` itself in the
corresponding event/callback fields (no claim depends on path splitting). -/

/-- Observable side effects of the download code. -/
inductive Event
  /-- `os.MkdirAll(filepath.Dir(dest))` succeeded (field: `dest`). -/
  | mkdirAll (dest : String)
  /-- `req.Header.Set("Range", "bytes={offset}-")`. -/
  | setRange (offset : ℤ)
  /-- `client.Do(req)`: the HTTP GET was issued; `insecure` tells which
  client (sharedClient vs insecureClient) issued it. -/
  | doRequest (insecure : Bool) (url : String)
  /-- `os.OpenFile(tempDest, O_APPEND|O_WRONLY, 0644)` succeeded. -/
  | openAppend (path : String)
  /-- `os.Create(path)` succeeded (file created/truncated). -/
  | createFile (path : String)
  /-- `file.Write` wrote `n` bytes to `path`. -/
  | writeBytes (path : String) (n : ℕ)
  /-- The progress callback of `DownloadWithProgress` was invoked with these
  arguments; `t` is the wall-clock time (ms) of the invocation. -/
  | progressCb (stage : String) (progress : ℚ) (message : String)
      (currentFile : String) (speed : String) (downloaded total : ℤ) (t : ℕ)
  /-- The simple progress callback of `DownloadFile` was invoked. -/
  | simpleProgress (downloaded total : ℤ) (speed : String)
  /-- `os.Rename(src, dst)` succeeded. -/
  | renameFile (src dst : String)
  /-- `time.Sleep` for `ms` milliseconds. -/
  | sleepMs (ms : ℕ)
deriving DecidableEq, Repr

/-- Outcome of one `resp.Body.Read(buf)` call (the error part). -/
inductive ReadRes
  /-- `readErr == nil`. -/
  | ok
  /-- `readErr == io.EOF`. -/
  | eof
  /-- `readErr` is some other error with message `msg`. -/
  | errR (msg : String)
deriving DecidableEq, Repr

/-- One iteration of the body-read loop: bytes returned, outcome of the
write (`none` = success), the clock at the progress-throttle check
(`tRead`) and at the `lastUpdate = time.Now()` reset (`tAfter`), and the
read outcome. -/
structure ReadStep where
  n : ℕ
  writeErr : Option String
  tRead : ℕ
  tAfter : ℕ
  res : ReadRes
deriving DecidableEq, Repr

/-- Environment of a single transfer attempt: outcomes of every external
call that `attemptDownload` / `attemptDownloadInsecure` makes. -/
structure AttemptEnv where
  /-- `os.MkdirAll` outcome. -/
  mkdirErr : Option String
  /-- `os.Stat(tempDest)`: `some size` when the temp file exists. -/
  tempSize : Option ℕ
  /-- `http.NewRequestWithContext` outcome. -/
  reqErr : Option String
  /-- `client.Do` outcome (`none` = a response arrived). -/
  doErr : Option String
  /-- `resp.StatusCode`. -/
  status : ℕ
  /-- `resp.ContentLength` (an `int64`; `-1` when unknown). -/
  contentLength : ℤ
  /-- `os.OpenFile` / `os.Create` outcome. -/
  openErr : Option String
  /-- `os.Rename` outcome. -/
  renameErr : Option String
  /-- `time.Now()` at `lastUpdate := time.Now()` before the loop. -/
  tStart : ℕ
  /-- The successive `resp.Body.Read` iterations. -/
  steps : List ReadStep
deriving Repr

/-- The read-write loop of `attemptDownload` (file.go 170–196).  Arguments
after the step list: `downloaded`, `lastDownloaded`, `lastUpdate`.  An
exhausted step list models a read that never returns (the Go loop would
block); it is reported as an error and, like every error exit, performs no
rename. -/
def readLoop (tempDest stage : String) (progressWeight : ℚ) (hasCb : Bool)
    (dest : String) (total : ℤ) :
    List ReadStep → ℤ → ℤ → ℕ → List Event × Except String Unit
  | [], _, _, _ => ([], Except.error "read blocked: no EOF reached")
  | step :: rest, downloaded, lastDownloaded, lastUpdate =>
    if 0 < step.n then
      match step.writeErr with
      | some e => ([], Except.error e)
      | none =>
        let d : ℤ := downloaded + (step.n : ℤ)
        let emit : Bool := decide (lastUpdate + 100 ≤ step.tRead) && hasCb
        let evP : List Event :=
          if emit then
            let speed : ℚ :=
              ((d - lastDownloaded : ℤ) : ℚ) / (((step.tRead - lastUpdate : ℕ) : ℚ) / 1000)
            [Event.progressCb stage ((d : ℚ) / (total : ℚ) * 100 * progressWeight)
              "Downloading..." dest (formatSpeed speed) d total step.tRead]
          else []
        let lastDownloaded2 : ℤ := if emit then d else lastDownloaded
        let lastUpdate2 : ℕ := if emit then step.tAfter else lastUpdate
        match step.res with
        | ReadRes.ok =>
          let r := readLoop tempDest stage progressWeight hasCb dest total
            rest d lastDownloaded2 lastUpdate2
          (Event.writeBytes tempDest step.n :: evP ++ r.1, r.2)
        | ReadRes.eof => (Event.writeBytes tempDest step.n :: evP, Except.ok ())
        | ReadRes.errR e => (Event.writeBytes tempDest step.n :: evP, Except.error e)
    else
      match step.res with
      | ReadRes.ok =>
        readLoop tempDest stage progressWeight hasCb dest total
          rest downloaded lastDownloaded lastUpdate
      | ReadRes.eof => ([], Except.ok ())
      | ReadRes.errR e => ([], Except.error e)

/-- `attemptDownload` (file.go 101–206).  `hasCb` models `callback != nil`;
the callback itself is observable only through `Event.progressCb`. -/
def attemptDownload (dest url stage : String) (progressWeight : ℚ)
    (hasCb : Bool) (env : AttemptEnv) : List Event × Except String Unit :=
  let tempDest := dest ++ ".tmp"
  match env.mkdirErr with
  | some e => ([], Except.error ("failed to create directory: " ++ e))
  | none =>
  let ev0 := [Event.mkdirAll dest]
  let resumeFrom : ℤ := ((env.tempSize.getD 0 : ℕ) : ℤ)
  match env.reqErr with
  | some e => (ev0, Except.error e)
  | none =>
  let ev1 := ev0 ++ (if 0 < resumeFrom then [Event.setRange resumeFrom] else []) ++
    [Event.doRequest false url]
  match env.doErr with
  | some e => (ev1, Except.error e)
  | none =>
  if env.status ≠ 200 ∧ env.status ≠ 206 then
    (ev1, Except.error ("unexpected status code: " ++ toString env.status))
  else
    -- on 206 open for append keeping resumeFrom; on 200 recreate and reset
    -- resumeFrom to 0 before total is computed
    let resume2 : ℤ := if env.status = 206 then resumeFrom else 0
    let openEv : Event :=
      if env.status = 206 then Event.openAppend tempDest else Event.createFile tempDest
    match env.openErr with
    | some e => (ev1, Except.error e)
    | none =>
      let ev2 := ev1 ++ [openEv]
      let total : ℤ := env.contentLength + resume2
      let r := readLoop tempDest stage progressWeight hasCb dest total
        env.steps resume2 resume2 env.tStart
      match r.2 with
      | Except.error e => (ev2 ++ r.1, Except.error e)
      | Except.ok _ =>
        match env.renameErr with
        | some e => (ev2 ++ r.1, Except.error e)
        | none => (ev2 ++ r.1 ++ [Event.renameFile tempDest dest], Except.ok ())

/-- The read-write loop of `attemptDownloadInsecure` (file.go 278–304), a
verbatim duplicate of the loop in `attemptDownload`, transcribed separately
because the source duplicates it. -/
def readLoopInsecure (tempDest stage : String) (progressWeight : ℚ) (hasCb : Bool)
    (dest : String) (total : ℤ) :
    List ReadStep → ℤ → ℤ → ℕ → List Event × Except String Unit
  | [], _, _, _ => ([], Except.error "read blocked: no EOF reached")
  | step :: rest, downloaded, lastDownloaded, lastUpdate =>
    if 0 < step.n then
      match step.writeErr with
      | some e => ([], Except.error e)
      | none =>
        let d : ℤ := downloaded + (step.n : ℤ)
        let emit : Bool := decide (lastUpdate + 100 ≤ step.tRead) && hasCb
        let evP : List Event :=
          if emit then
            let speed : ℚ :=
              ((d - lastDownloaded : ℤ) : ℚ) / (((step.tRead - lastUpdate : ℕ) : ℚ) / 1000)
            [Event.progressCb stage ((d : ℚ) / (total : ℚ) * 100 * progressWeight)
              "Downloading..." dest (formatSpeed speed) d total step.tRead]
          else []
        let lastDownloaded2 : ℤ := if emit then d else lastDownloaded
        let lastUpdate2 : ℕ := if emit then step.tAfter else lastUpdate
        match step.res with
        | ReadRes.ok =>
          let r := readLoopInsecure tempDest stage progressWeight hasCb dest total
            rest d lastDownloaded2 lastUpdate2
          (Event.writeBytes tempDest step.n :: evP ++ r.1, r.2)
        | ReadRes.eof => (Event.writeBytes tempDest step.n :: evP, Except.ok ())
        | ReadRes.errR e => (Event.writeBytes tempDest step.n :: evP, Except.error e)
    else
      match step.res with
      | ReadRes.ok =>
        readLoopInsecure tempDest stage progressWeight hasCb dest total
          rest downloaded lastDownloaded lastUpdate
      | ReadRes.eof => ([], Except.ok ())
      | ReadRes.errR e => ([], Except.error e)

/-- `attemptDownloadInsecure` (file.go 208–314): identical to
`attemptDownload` except that the insecure client issues the request. -/
def attemptDownloadInsecure (dest url stage : String) (progressWeight : ℚ)
    (hasCb : Bool) (env : AttemptEnv) : List Event × Except String Unit :=
  let tempDest := dest ++ ".tmp"
  match env.mkdirErr with
  | some e => ([], Except.error ("failed to create directory: " ++ e))
  | none =>
  let ev0 := [Event.mkdirAll dest]
  let resumeFrom : ℤ := ((env.tempSize.getD 0 : ℕ) : ℤ)
  match env.reqErr with
  | some e => (ev0, Except.error e)
  | none =>
  let ev1 := ev0 ++ (if 0 < resumeFrom then [Event.setRange resumeFrom] else []) ++
    [Event.doRequest true url]
  match env.doErr with
  | some e => (ev1, Except.error e)
  | none =>
  if env.status ≠ 200 ∧ env.status ≠ 206 then
    (ev1, Except.error ("unexpected status code: " ++ toString env.status))
  else
    let resume2 : ℤ := if env.status = 206 then resumeFrom else 0
    let openEv : Event :=
      if env.status = 206 then Event.openAppend tempDest else Event.createFile tempDest
    match env.openErr with
    | some e => (ev1, Except.error e)
    | none =>
      let ev2 := ev1 ++ [openEv]
      let total : ℤ := env.contentLength + resume2
      let r := readLoopInsecure tempDest stage progressWeight hasCb dest total
        env.steps resume2 resume2 env.tStart
      match r.2 with
      | Except.error e => (ev2 ++ r.1, Except.error e)
      | Except.ok _ =>
        match env.renameErr with
        | some e => (ev2 ++ r.1, Except.error e)
        | none => (ev2 ++ r.1 ++ [Event.renameFile tempDest dest], Except.ok ())

/-- `maxRetries` (file.go 17). -/
def maxRetries : ℕ := 3

/-- `retryDelay` in milliseconds (file.go 18). -/
def retryDelayMs : ℕ := 2000

/-- Environment of a whole `DownloadWithProgress` call: one `AttemptEnv` per
verified attempt (indexed by the Go loop's `attempt` counter, 1-based) and
one for the optional insecure fallback attempt. -/
structure EngineEnv where
  attempts : ℕ → AttemptEnv
  insecureAttempt : AttemptEnv

/-- The retry loop of `DownloadWithProgress` (file.go 32–55), with the
attempt counter explicit; `fuel` counts the remaining loop iterations
(`maxRetries + 1 - attempt`), so the base case is unreachable from the
entry point and carries the loop's exhaustion error. -/
def downloadLoop (dest url stage : String) (progressWeight : ℚ) (hasCb : Bool)
    (env : EngineEnv) : ℕ → String → ℕ → List Event × Except String Unit
  | _, lastErr, 0 =>
    ([], Except.error ("download failed after " ++ toString maxRetries ++
      " attempts: " ++ lastErr))
  | attempt, _, fuel + 1 =>
    let a := attemptDownload dest url stage progressWeight hasCb (env.attempts attempt)
    match a.2 with
    | Except.ok _ => (a.1, Except.ok ())
    | Except.error e =>
      if attempt == 1 && isCertError (some e) && isTrustedSource url then
        let b := attemptDownloadInsecure dest url stage progressWeight hasCb
          env.insecureAttempt
        match b.2 with
        | Except.ok _ => (a.1 ++ b.1, Except.ok ())
        | Except.error eI =>
          if attempt < maxRetries then
            let c := downloadLoop dest url stage progressWeight hasCb env
              (attempt + 1) eI fuel
            (a.1 ++ b.1 ++ [Event.sleepMs retryDelayMs] ++ c.1, c.2)
          else
            (a.1 ++ b.1, Except.error ("download failed after " ++
              toString maxRetries ++ " attempts: " ++ eI))
      else
        if attempt < maxRetries then
          let c := downloadLoop dest url stage progressWeight hasCb env
            (attempt + 1) e fuel
          (a.1 ++ [Event.sleepMs retryDelayMs] ++ c.1, c.2)
        else
          (a.1, Except.error ("download failed after " ++
            toString maxRetries ++ " attempts: " ++ e))

/-- `DownloadWithProgress` (file.go 23–58). -/
def DownloadWithProgress (dest url stage : String) (progressWeight : ℚ)
    (hasCb : Bool) (env : EngineEnv) : List Event × Except String Unit :=
  downloadLoop dest url stage progressWeight hasCb env 1 "" maxRetries

/-! ### The simple `DownloadFile` entry point (file.go 427–489). -/

/-- One read iteration of `DownloadFile`'s loop: bytes, write outcome,
clock at the callback, read outcome. -/
structure SimpleStep where
  n : ℕ
  writeErr : Option String
  tNow : ℕ
  res : ReadRes
deriving DecidableEq, Repr

/-- Environment of a `DownloadFile` call. -/
structure SimpleEnv where
  mkdirErr : Option String
  reqErr : Option String
  doErr : Option String
  status : ℕ
  contentLength : ℤ
  createErr : Option String
  tStart : ℕ
  steps : List SimpleStep
deriving Repr

/-- The read-write loop of `DownloadFile` (file.go 462–486): writes go
straight to `dest`, the callback fires on every chunk (no throttle). -/
def simpleLoop (dest : String) (hasCb : Bool) (total : ℤ) (tStart : ℕ) :
    List SimpleStep → ℤ → List Event × Except String Unit
  | [], _ => ([], Except.error "read blocked: no EOF reached")
  | step :: rest, downloaded =>
    if 0 < step.n then
      match step.writeErr with
      | some e => ([], Except.error e)
      | none =>
        let d : ℤ := downloaded + (step.n : ℤ)
        let evP : List Event :=
          if hasCb then
            let speed : String :=
              if 0 < step.tNow - tStart then
                formatSpeed ((d : ℚ) / (((step.tNow - tStart : ℕ) : ℚ) / 1000))
              else ""
            [Event.simpleProgress d total speed]
          else []
        match step.res with
        | ReadRes.eof => (Event.writeBytes dest step.n :: evP, Except.ok ())
        | ReadRes.errR e => (Event.writeBytes dest step.n :: evP, Except.error e)
        | ReadRes.ok =>
          let r := simpleLoop dest hasCb total tStart rest d
          (Event.writeBytes dest step.n :: evP ++ r.1, r.2)
    else
      match step.res with
      | ReadRes.eof => ([], Except.ok ())
      | ReadRes.errR e => ([], Except.error e)
      | ReadRes.ok => simpleLoop dest hasCb total tStart rest downloaded

/-- `DownloadFile` (file.go 428–489): no temp file, no Range header, only
status 200 accepted, the destination opened with `os.Create`, no rename. -/
def DownloadFile (url dest : String) (hasCb : Bool) (env : SimpleEnv) :
    List Event × Except String Unit :=
  match env.mkdirErr with
  | some e => ([], Except.error ("failed to create directory: " ++ e))
  | none =>
  let ev0 := [Event.mkdirAll dest]
  match env.reqErr with
  | some e => (ev0, Except.error e)
  | none =>
  let ev1 := ev0 ++ [Event.doRequest false url]
  match env.doErr with
  | some e => (ev1, Except.error ("failed to start download: " ++ e))
  | none =>
  if env.status ≠ 200 then
    (ev1, Except.error ("HTTP error: " ++ toString env.status))
  else
    match env.createErr with
    | some e => (ev1, Except.error e)
    | none =>
      let ev2 := ev1 ++ [Event.createFile dest]
      let r := simpleLoop dest hasCb env.contentLength env.tStart env.steps 0
      (ev2 ++ r.1, r.2)

/-! ### Characterization of the string helpers -/

/-- Matching a slice at the head of `s` is exactly matching `t ++ r`. -/
theorem take_len_eq_iff (s t : List Char) :
    s.take t.length = t ↔ ∃ r, s = t ++ r := by
  constructor
  · intro h
    have hle : t.length ≤ s.length := by
      have hlen := congrArg List.length h
      simp only [List.length_take] at hlen
      omega
    refine ⟨s.drop t.length, ?_⟩
    conv_lhs => rw [← List.take_append_drop t.length s]
    rw [h]
  · rintro ⟨r, rfl⟩
    simp

/-- `findSubstring s t` holds exactly when `t` occurs contiguously in `s`. -/
theorem findSubstring_iff : ∀ s t : List Char,
    findSubstring s t = true ↔ ∃ l r, s = l ++ t ++ r := by
  intro s
  induction s with
  | nil =>
    intro t
    rw [findSubstring]
    cases t with
    | nil => simp
    | cons c t1 => simp
  | cons a s1 ih =>
    intro t
    rw [findSubstring]
    by_cases h : t.length ≤ (a :: s1).length
    · rw [if_pos h, Bool.or_eq_true, decide_eq_true_eq, ih, take_len_eq_iff]
      constructor
      · rintro (⟨r, hr⟩ | ⟨l, r, hr⟩)
        · exact ⟨[], r, by simpa using hr⟩
        · exact ⟨a :: l, r, by simp [hr]⟩
      · rintro ⟨l, r, hr⟩
        cases l with
        | nil => exact Or.inl ⟨r, by simpa using hr⟩
        | cons x l1 =>
          have hx : a = x ∧ s1 = l1 ++ t ++ r := by
            simpa using hr
          exact Or.inr ⟨l1, r, hx.2⟩
    · rw [if_neg h]
      simp only [Bool.false_eq_true, false_iff]
      rintro ⟨l, r, hr⟩
      have := congrArg List.length hr
      simp only [List.length_append, List.length_cons] at this h
      omega

/-- `containsL s t` holds exactly when `t` is a contiguous sub-list of `s`
(full match, head slice, tail slice, or interior occurrence). -/
theorem containsL_iff (s t : List Char) :
    containsL s t = true ↔ ∃ l r, s = l ++ t ++ r := by
  constructor
  · intro h
    simp only [containsL, Bool.and_eq_true, Bool.or_eq_true, decide_eq_true_eq] at h
    obtain ⟨hlen, h2⟩ := h
    rcases h2 with heq | ⟨hlt, h3⟩
    · exact ⟨[], [], by simp [heq]⟩
    · rcases h3 with (hpre | hsuf) | hfind
      · obtain ⟨r, hr⟩ := (take_len_eq_iff s t).mp hpre
        exact ⟨[], r, by simpa using hr⟩
      · refine ⟨s.take (s.length - t.length), [], ?_⟩
        rw [List.append_nil]
        conv_lhs => rw [← List.take_append_drop (s.length - t.length) s]
        rw [hsuf]
      · exact (findSubstring_iff s t).mp hfind
  · rintro ⟨l, r, rfl⟩
    simp only [containsL, Bool.and_eq_true, Bool.or_eq_true, decide_eq_true_eq]
    have hlen : t.length ≤ (l ++ t ++ r).length := by
      simp only [List.length_append]; omega
    refine ⟨hlen, ?_⟩
    by_cases hl : l = []
    · by_cases hr : r = []
      · subst hl; subst hr; exact Or.inl (by simp)
      · refine Or.inr ⟨?_, Or.inr ((findSubstring_iff _ t).mpr ⟨l, r, rfl⟩)⟩
        have : 0 < r.length := List.length_pos.mpr hr
        simp only [List.length_append]; omega
    · refine Or.inr ⟨?_, Or.inr ((findSubstring_iff _ t).mpr ⟨l, r, rfl⟩)⟩
      have : 0 < l.length := List.length_pos.mpr hl
      simp only [List.length_append]; omega

/-- C6: trusted-host matching semantics — `isTrustedSource url` holds iff one
of the four fixed allow-list strings occurs as a contiguous case-sensitive
substring of the URL, and the helper `contains s t` holds exactly when `t`
is a substring of `s` (full match, head, tail, or interior occurrence). -/
theorem c6_trusted_source_substring :
    (∀ s t : String, contains s t = true ↔
      ∃ l r, s.toList = l ++ t.toList ++ r) ∧
    (∀ url : String, isTrustedSource url = true ↔
      ((∃ l r, url.toList = l ++ "github.com".toList ++ r) ∨
       (∃ l r, url.toList = l ++ "githubusercontent.com".toList ++ r) ∨
       (∃ l r, url.toList = l ++ "adoptium.net".toList ++ r) ∨
       (∃ l r, url.toList = l ++ "itch.zone".toList ++ r))) := by
  refine ⟨fun s t => ?_, fun url => ?_⟩
  · rw [contains, containsL_iff]
  · rw [isTrustedSource, trustedDomains]
    simp only [List.any_cons, List.any_nil, Bool.or_eq_true, Bool.or_false,
      contains, containsL_iff]

/-- Concrete instance of C6: a GitHub release URL is trusted. -/
theorem c6_trusted_source_substring_witness :
    isTrustedSource "https://github.com/owner/repo/releases" = true :=
  (c6_trusted_source_substring.2 "https://github.com/owner/repo/releases").mpr
    (Or.inl ⟨"https://".toList, "/owner/repo/releases".toList, by decide⟩)

/-- C8: speed formatting — below 1024 the rate is printed with no decimal
places and suffixed " B/s"; from 1024 up to 1024² the rate is divided by
1024 and printed with one decimal place suffixed " KB/s"; otherwise divided
by 1024² and suffixed " MB/s"; in particular 500 → "500 B/s",
2048 → "2.0 KB/s" and 5·1024·1024 → "5.0 MB/s". -/
theorem c8_format_speed :
    (∀ rate : ℚ, rate < 1024 → formatSpeed rate = fmtF0 rate ++ " B/s") ∧
    (∀ rate : ℚ, 1024 ≤ rate → rate < 1024 * 1024 →
      formatSpeed rate = fmtF1 (rate / 1024) ++ " KB/s") ∧
    (∀ rate : ℚ, 1024 * 1024 ≤ rate →
      formatSpeed rate = fmtF1 (rate / (1024 * 1024)) ++ " MB/s") ∧
    formatSpeed 500 = "500 B/s" ∧
    formatSpeed 2048 = "2.0 KB/s" ∧
    formatSpeed (5 * 1024 * 1024) = "5.0 MB/s" := by
  refine ⟨fun rate h => ?_, fun rate h1 h2 => ?_, fun rate h => ?_, ?_, ?_, ?_⟩
  · rw [formatSpeed, if_pos h]
  · rw [formatSpeed, if_neg (not_lt.mpr h1), if_pos h2]
  · have h1 : ¬ rate < 1024 := not_lt.mpr (by linarith)
    have h2 : ¬ rate < 1024 * 1024 := not_lt.mpr h
    rw [formatSpeed, if_neg h1, if_neg h2]
  · rw [formatSpeed, if_pos (by norm_num), fmtF0, roundHalfEven]
    norm_num
    rfl
  · rw [formatSpeed, if_neg (by norm_num), if_pos (by norm_num)]
    norm_num [fmtF1, roundHalfEven]
    rfl
  · rw [formatSpeed, if_neg (by norm_num), if_neg (by norm_num)]
    norm_num [fmtF1, roundHalfEven]
    rfl

/-- Concrete instance of C8 at rate 2048. -/
theorem c8_format_speed_witness :
    formatSpeed 2048 = fmtF1 (2048 / 1024) ++ " KB/s" :=
  c8_format_speed.2.1 2048 (by norm_num) (by norm_num)

/-! ### Structural lemmas about attempt traces -/

/-- Events the body-read loop can emit: writes to the temp file and progress
callbacks — never a rename, a request, a header, an open or a sleep. -/
def isLoopEvent : Event → Bool
  | Event.writeBytes _ _ => true
  | Event.progressCb _ _ _ _ _ _ _ _ => true
  | _ => false

theorem readLoop_all (tempDest stage : String) (w : ℚ) (hasCb : Bool)
    (dest : String) (total : ℤ) :
    ∀ (steps : List ReadStep) (d ld : ℤ) (lu : ℕ),
      (readLoop tempDest stage w hasCb dest total steps d ld lu).1.all
        isLoopEvent = true := by
  intro steps
  induction steps with
  | nil => intro d ld lu; rfl
  | cons step rest ih =>
    intro d ld lu
    rw [readLoop]
    by_cases hn : 0 < step.n
    · rw [if_pos hn]
      cases hw : step.writeErr with
      | some e => rfl
      | none =>
        cases hr : step.res with
        | ok =>
          simp only [List.all_cons, List.all_append, Bool.and_eq_true, ih,
            and_true]
          refine ⟨rfl, ?_⟩
          split <;> rfl
        | eof =>
          simp only [List.all_cons, Bool.and_eq_true]
          refine ⟨rfl, ?_⟩
          split <;> rfl
        | errR e =>
          simp only [List.all_cons, Bool.and_eq_true]
          refine ⟨rfl, ?_⟩
          split <;> rfl
    · rw [if_neg hn]
      cases hr : step.res with
      | ok => exact ih _ _ _
      | eof => rfl
      | errR e => rfl

theorem readLoopInsecure_eq (tempDest stage : String) (w : ℚ) (hasCb : Bool)
    (dest : String) (total : ℤ) :
    ∀ (steps : List ReadStep) (d ld : ℤ) (lu : ℕ),
      readLoopInsecure tempDest stage w hasCb dest total steps d ld lu =
        readLoop tempDest stage w hasCb dest total steps d ld lu := by
  intro steps
  induction steps with
  | nil => intro d ld lu; rfl
  | cons step rest ih =>
    intro d ld lu
    rw [readLoopInsecure, readLoop]
    simp only [ih]

/-- Events a transfer attempt may emit before its final rename: everything
except a rename, a sleep, an insecure request, or a `DownloadFile` callback. -/
def preEvent : Event → Bool
  | Event.renameFile _ _ => false
  | Event.sleepMs _ => false
  | Event.simpleProgress _ _ _ => false
  | Event.doRequest b _ => !b
  | _ => true

theorem preEvent_of_loopEvent (e : Event) (h : isLoopEvent e = true) :
    preEvent e = true := by
  cases e <;> simp_all [isLoopEvent, preEvent]

theorem all_preEvent_of_all_loopEvent {l : List Event}
    (h : l.all isLoopEvent = true) : l.all preEvent = true := by
  rw [List.all_eq_true] at h ⊢
  exact fun e he => preEvent_of_loopEvent e (h e he)

theorem readLoop_all_pre (tempDest stage : String) (w : ℚ) (hasCb : Bool)
    (dest : String) (total : ℤ) (steps : List ReadStep) (d ld : ℤ) (lu : ℕ) :
    (readLoop tempDest stage w hasCb dest total steps d ld lu).1.all
      preEvent = true :=
  all_preEvent_of_all_loopEvent
    (readLoop_all tempDest stage w hasCb dest total steps d ld lu)

/-- Proof-infrastructure view of the two attempt procedures: the shared body
with the issuing client (`insecure`), the Range-header events and the resume
offset abstracted out.  `attemptDownload` and `attemptDownloadInsecure` are
definitionally (resp. after folding the duplicated loop) instances of it. -/
def attemptCore (insecure : Bool) (dest url stage : String) (w : ℚ)
    (hasCb : Bool) (env : AttemptEnv) (rangeEvs : List Event)
    (resumeFrom : ℤ) : List Event × Except String Unit :=
  let tempDest := dest ++ ".tmp"
  match env.mkdirErr with
  | some e => ([], Except.error ("failed to create directory: " ++ e))
  | none =>
  let ev0 := [Event.mkdirAll dest]
  match env.reqErr with
  | some e => (ev0, Except.error e)
  | none =>
  let ev1 := ev0 ++ rangeEvs ++ [Event.doRequest insecure url]
  match env.doErr with
  | some e => (ev1, Except.error e)
  | none =>
  if env.status ≠ 200 ∧ env.status ≠ 206 then
    (ev1, Except.error ("unexpected status code: " ++ toString env.status))
  else
    let resume2 : ℤ := if env.status = 206 then resumeFrom else 0
    let openEv : Event :=
      if env.status = 206 then Event.openAppend tempDest else Event.createFile tempDest
    match env.openErr with
    | some e => (ev1, Except.error e)
    | none =>
      let ev2 := ev1 ++ [openEv]
      let total : ℤ := env.contentLength + resume2
      let r := readLoop tempDest stage w hasCb dest total env.steps resume2 resume2 env.tStart
      match r.2 with
      | Except.error e => (ev2 ++ r.1, Except.error e)
      | Except.ok _ =>
        match env.renameErr with
        | some e => (ev2 ++ r.1, Except.error e)
        | none => (ev2 ++ r.1 ++ [Event.renameFile tempDest dest], Except.ok ())

/-- The Range-header events of an attempt, as a function of the resume
offset. -/
def rangeEvents (resumeFrom : ℤ) : List Event :=
  if 0 < resumeFrom then [Event.setRange resumeFrom] else []

/-- The resume offset an attempt derives from the temp-file stat. -/
def resumeOf (env : AttemptEnv) : ℤ := ((env.tempSize.getD 0 : ℕ) : ℤ)

theorem attemptDownload_eq_core (dest url stage : String) (w : ℚ)
    (hasCb : Bool) (env : AttemptEnv) :
    attemptDownload dest url stage w hasCb env =
      attemptCore false dest url stage w hasCb env
        (rangeEvents (resumeOf env)) (resumeOf env) := rfl

theorem attemptDownloadInsecure_eq_core (dest url stage : String) (w : ℚ)
    (hasCb : Bool) (env : AttemptEnv) :
    attemptDownloadInsecure dest url stage w hasCb env =
      attemptCore true dest url stage w hasCb env
        (rangeEvents (resumeOf env)) (resumeOf env) := by
  simp only [attemptDownloadInsecure, attemptCore, rangeEvents, resumeOf,
    readLoopInsecure_eq]

/-- Events attributable to the attempt issued by client `b`, short of the
final rename: no rename, no sleep, no request by the other client, no
`DownloadFile` callback. -/
def preEventB (b : Bool) : Event → Bool
  | Event.renameFile _ _ => false
  | Event.sleepMs _ => false
  | Event.simpleProgress _ _ _ => false
  | Event.doRequest b2 _ => b2 == b
  | _ => true

theorem preEventB_of_loopEvent (b : Bool) (e : Event)
    (h : isLoopEvent e = true) : preEventB b e = true := by
  cases e <;> simp_all [isLoopEvent, preEventB]

theorem readLoop_all_preB (b : Bool) (tempDest stage : String) (w : ℚ)
    (hasCb : Bool) (dest : String) (total : ℤ) (steps : List ReadStep)
    (d ld : ℤ) (lu : ℕ) :
    (readLoop tempDest stage w hasCb dest total steps d ld lu).1.all
      (preEventB b) = true := by
  rw [List.all_eq_true]
  intro e he
  refine preEventB_of_loopEvent b e ?_
  have h := readLoop_all tempDest stage w hasCb dest total steps d ld lu
  rw [List.all_eq_true] at h
  exact h e he

theorem rangeEvents_all (b : Bool) (resumeFrom : ℤ) :
    (rangeEvents resumeFrom).all (preEventB b) = true := by
  rw [rangeEvents]
  split <;> rfl

/-- Master shape of one attempt (over the shared core): the trace is a list
of ordinary attempt events followed by the single rename of the temp file
to the destination exactly when the attempt succeeds. -/
theorem attemptCore_shape (b : Bool) (dest url stage : String) (w : ℚ)
    (hasCb : Bool) (env : AttemptEnv) (rangeEvs : List Event)
    (resumeFrom : ℤ) (hrange : rangeEvs.all (preEventB b) = true) :
    ∃ pre : List Event, pre.all (preEventB b) = true ∧
      (((attemptCore b dest url stage w hasCb env rangeEvs resumeFrom).1 =
          pre ++ [Event.renameFile (dest ++ ".tmp") dest] ∧
        (attemptCore b dest url stage w hasCb env rangeEvs resumeFrom).2 =
          Except.ok ()) ∨
       ((attemptCore b dest url stage w hasCb env rangeEvs resumeFrom).1 = pre ∧
        (attemptCore b dest url stage w hasCb env rangeEvs resumeFrom).2 ≠
          Except.ok ())) := by
  have hev1 : ([Event.mkdirAll dest] ++ rangeEvs ++
      [Event.doRequest b url]).all (preEventB b) = true := by
    simp only [List.all_append, List.all_cons, List.all_nil, Bool.and_eq_true,
      Bool.and_true]
    exact ⟨⟨rfl, hrange⟩, by simp [preEventB]⟩
  have hev2 : (([Event.mkdirAll dest] ++ rangeEvs ++ [Event.doRequest b url]) ++
      [if env.status = 206 then Event.openAppend (dest ++ ".tmp")
       else Event.createFile (dest ++ ".tmp")]).all (preEventB b) = true := by
    simp only [List.all_append, List.all_cons, List.all_nil, Bool.and_eq_true,
      Bool.and_true] at hev1 ⊢
    refine ⟨hev1, ?_⟩
    split <;> rfl
  simp only [attemptCore]
  cases hm : env.mkdirErr with
  | some e => exact ⟨[], rfl, Or.inr ⟨rfl, by simp⟩⟩
  | none =>
  cases hq : env.reqErr with
  | some e => exact ⟨[Event.mkdirAll dest], rfl, Or.inr ⟨rfl, by simp⟩⟩
  | none =>
  cases hd : env.doErr with
  | some e => exact ⟨_, hev1, Or.inr ⟨rfl, by simp⟩⟩
  | none =>
  by_cases hs : env.status ≠ 200 ∧ env.status ≠ 206
  · rw [if_pos hs]
    exact ⟨_, hev1, Or.inr ⟨rfl, by simp⟩⟩
  · rw [if_neg hs]
    cases ho : env.openErr with
    | some e => exact ⟨_, hev1, Or.inr ⟨rfl, by simp⟩⟩
    | none =>
      cases hl : (readLoop (dest ++ ".tmp") stage w hasCb dest
          (env.contentLength + if env.status = 206 then resumeFrom else 0)
          env.steps (if env.status = 206 then resumeFrom else 0)
          (if env.status = 206 then resumeFrom else 0) env.tStart).2 with
      | error e =>
        refine ⟨_, ?_, Or.inr ⟨rfl, by simp⟩⟩
        rw [List.all_append, hev2, readLoop_all_preB]
        rfl
      | ok u =>
        cases hr : env.renameErr with
        | some e =>
          refine ⟨_, ?_, Or.inr ⟨rfl, by simp⟩⟩
          rw [List.all_append, hev2, readLoop_all_preB]
          rfl
        | none =>
          refine ⟨_, ?_, Or.inl ⟨rfl, rfl⟩⟩
          rw [List.all_append, hev2, readLoop_all_preB]
          rfl

theorem not_mem_of_all {l : List Event} {p : Event → Bool} (e : Event)
    (h : l.all p = true) (he : p e = false) : e ∉ l := by
  intro hm
  have := List.all_eq_true.mp h e hm
  rw [he] at this
  cases this

/-- Shape of `attemptDownload`, stated on the source function. -/
theorem attemptDownload_shape (dest url stage : String) (w : ℚ)
    (hasCb : Bool) (env : AttemptEnv) :
    ∃ pre : List Event, pre.all (preEventB false) = true ∧
      (((attemptDownload dest url stage w hasCb env).1 =
          pre ++ [Event.renameFile (dest ++ ".tmp") dest] ∧
        (attemptDownload dest url stage w hasCb env).2 = Except.ok ()) ∨
       ((attemptDownload dest url stage w hasCb env).1 = pre ∧
        (attemptDownload dest url stage w hasCb env).2 ≠ Except.ok ())) := by
  rw [attemptDownload_eq_core]
  exact attemptCore_shape false dest url stage w hasCb env _ _
    (rangeEvents_all false (resumeOf env))

/-- Shape of `attemptDownloadInsecure`, stated on the source function. -/
theorem attemptDownloadInsecure_shape (dest url stage : String) (w : ℚ)
    (hasCb : Bool) (env : AttemptEnv) :
    ∃ pre : List Event, pre.all (preEventB true) = true ∧
      (((attemptDownloadInsecure dest url stage w hasCb env).1 =
          pre ++ [Event.renameFile (dest ++ ".tmp") dest] ∧
        (attemptDownloadInsecure dest url stage w hasCb env).2 = Except.ok ()) ∨
       ((attemptDownloadInsecure dest url stage w hasCb env).1 = pre ∧
        (attemptDownloadInsecure dest url stage w hasCb env).2 ≠ Except.ok ())) := by
  rw [attemptDownloadInsecure_eq_core]
  exact attemptCore_shape true dest url stage w hasCb env _ _
    (rangeEvents_all true (resumeOf env))

/-- A failed verified attempt performs no rename at all. -/
theorem attemptDownload_error_no_rename (dest url stage : String) (w : ℚ)
    (hasCb : Bool) (env : AttemptEnv) (msg : String)
    (h : (attemptDownload dest url stage w hasCb env).2 = Except.error msg) :
    ∀ a c, Event.renameFile a c ∉ (attemptDownload dest url stage w hasCb env).1 := by
  obtain ⟨pre, hall, hcase⟩ := attemptDownload_shape dest url stage w hasCb env
  rcases hcase with ⟨-, hok⟩ | ⟨htr, -⟩
  · rw [h] at hok; cases hok
  · intro a c
    rw [htr]
    exact not_mem_of_all (Event.renameFile a c) hall rfl

/-- A failed insecure attempt performs no rename at all. -/
theorem attemptDownloadInsecure_error_no_rename (dest url stage : String)
    (w : ℚ) (hasCb : Bool) (env : AttemptEnv) (msg : String)
    (h : (attemptDownloadInsecure dest url stage w hasCb env).2 =
      Except.error msg) :
    ∀ a c, Event.renameFile a c ∉
      (attemptDownloadInsecure dest url stage w hasCb env).1 := by
  obtain ⟨pre, hall, hcase⟩ := attemptDownloadInsecure_shape dest url stage w hasCb env
  rcases hcase with ⟨-, hok⟩ | ⟨htr, -⟩
  · rw [h] at hok; cases hok
  · intro a c
    rw [htr]
    exact not_mem_of_all (Event.renameFile a c) hall rfl

/-- A successful attempt's trace ends with exactly the one rename. -/
theorem attemptDownload_ok_rename (dest url stage : String) (w : ℚ)
    (hasCb : Bool) (env : AttemptEnv)
    (h : (attemptDownload dest url stage w hasCb env).2 = Except.ok ()) :
    ∃ pre : List Event,
      (attemptDownload dest url stage w hasCb env).1 =
        pre ++ [Event.renameFile (dest ++ ".tmp") dest] ∧
      ∀ a c, Event.renameFile a c ∉ pre := by
  obtain ⟨pre, hall, hcase⟩ := attemptDownload_shape dest url stage w hasCb env
  rcases hcase with ⟨htr, -⟩ | ⟨-, hok⟩
  · exact ⟨pre, htr, fun a c => not_mem_of_all (Event.renameFile a c) hall rfl⟩
  · exact absurd h hok

/-- A verified attempt never sleeps. -/
theorem attemptDownload_no_sleep (dest url stage : String) (w : ℚ)
    (hasCb : Bool) (env : AttemptEnv) (m : ℕ) :
    Event.sleepMs m ∉ (attemptDownload dest url stage w hasCb env).1 := by
  obtain ⟨pre, hall, hcase⟩ := attemptDownload_shape dest url stage w hasCb env
  rcases hcase with ⟨htr, -⟩ | ⟨htr, -⟩ <;> rw [htr]
  · intro hm
    rcases List.mem_append.mp hm with hp | hs
    · exact not_mem_of_all (Event.sleepMs m) hall rfl hp
    · simp at hs
  · exact not_mem_of_all (Event.sleepMs m) hall rfl

/-- An insecure attempt never sleeps. -/
theorem attemptDownloadInsecure_no_sleep (dest url stage : String) (w : ℚ)
    (hasCb : Bool) (env : AttemptEnv) (m : ℕ) :
    Event.sleepMs m ∉ (attemptDownloadInsecure dest url stage w hasCb env).1 := by
  obtain ⟨pre, hall, hcase⟩ := attemptDownloadInsecure_shape dest url stage w hasCb env
  rcases hcase with ⟨htr, -⟩ | ⟨htr, -⟩ <;> rw [htr]
  · intro hm
    rcases List.mem_append.mp hm with hp | hs
    · exact not_mem_of_all (Event.sleepMs m) hall rfl hp
    · simp at hs
  · exact not_mem_of_all (Event.sleepMs m) hall rfl

/-- A verified attempt never issues a request through the insecure client. -/
theorem attemptDownload_no_insecure_request (dest url stage : String) (w : ℚ)
    (hasCb : Bool) (env : AttemptEnv) (u : String) :
    Event.doRequest true u ∉ (attemptDownload dest url stage w hasCb env).1 := by
  obtain ⟨pre, hall, hcase⟩ := attemptDownload_shape dest url stage w hasCb env
  rcases hcase with ⟨htr, -⟩ | ⟨htr, -⟩ <;> rw [htr]
  · intro hm
    rcases List.mem_append.mp hm with hp | hs
    · exact not_mem_of_all (Event.doRequest true u) hall rfl hp
    · simp at hs
  · exact not_mem_of_all (Event.doRequest true u) hall rfl

/-- When the whole retry loop fails, no rename was performed anywhere. -/
theorem downloadLoop_error_no_rename (dest url stage : String) (w : ℚ)
    (hasCb : Bool) (env : EngineEnv) :
    ∀ (fuel attempt : ℕ) (lastErr msg : String),
      (downloadLoop dest url stage w hasCb env attempt lastErr fuel).2 =
        Except.error msg →
      ∀ a c, Event.renameFile a c ∉
        (downloadLoop dest url stage w hasCb env attempt lastErr fuel).1 := by
  intro fuel
  induction fuel with
  | zero =>
    intro attempt lastErr msg h a c
    simp [downloadLoop]
  | succ fuel ih =>
    intro attempt lastErr msg h a c
    rw [downloadLoop] at h ⊢
    revert h
    cases ha : (attemptDownload dest url stage w hasCb (env.attempts attempt)).2 with
    | ok u =>
      intro h
      dsimp only at h
      exact absurd h (by simp)
    | error e =>
      intro h
      dsimp only at h ⊢
      by_cases hg : (attempt == 1 && isCertError (some e) && isTrustedSource url) = true
      · rw [if_pos hg] at h ⊢
        revert h
        cases hb : (attemptDownloadInsecure dest url stage w hasCb
            env.insecureAttempt).2 with
        | ok u =>
          intro h
          dsimp only at h
          exact absurd h (by simp)
        | error eI =>
          intro h
          dsimp only at h ⊢
          by_cases hlt : attempt < maxRetries
          · rw [if_pos hlt] at h ⊢
            intro hm
            simp only [List.append_assoc, List.mem_append, List.mem_cons,
              List.not_mem_nil, or_false] at hm
            rcases hm with h1 | h2 | h3 | h4
            · exact attemptDownload_error_no_rename dest url stage w hasCb
                (env.attempts attempt) e ha a c h1
            · exact attemptDownloadInsecure_error_no_rename dest url stage w hasCb
                env.insecureAttempt eI hb a c h2
            · cases h3
            · exact ih (attempt + 1) eI msg h a c h4
          · rw [if_neg hlt] at h ⊢
            intro hm
            rcases List.mem_append.mp hm with h1 | h2
            · exact attemptDownload_error_no_rename dest url stage w hasCb
                (env.attempts attempt) e ha a c h1
            · exact attemptDownloadInsecure_error_no_rename dest url stage w hasCb
                env.insecureAttempt eI hb a c h2
      · rw [if_neg hg] at h ⊢
        by_cases hlt : attempt < maxRetries
        · rw [if_pos hlt] at h ⊢
          intro hm
          simp only [List.append_assoc, List.mem_append, List.mem_cons,
            List.not_mem_nil, or_false] at hm
          rcases hm with h1 | h2 | h3
          · exact attemptDownload_error_no_rename dest url stage w hasCb
              (env.attempts attempt) e ha a c h1
          · cases h2
          · exact ih (attempt + 1) e msg h a c h3
        · rw [if_neg hlt] at h ⊢
          exact attemptDownload_error_no_rename dest url stage w hasCb
            (env.attempts attempt) e ha a c

/-- C1: atomicity — a single attempt renames the temp file to the
destination only as its final action after a clean end-of-stream, never on
an error return; consequently whenever `DownloadWithProgress` returns an
error, no rename to the destination was performed by it. -/
theorem c1_error_no_rename (dest url stage : String) (w : ℚ) (hasCb : Bool) :
    (∀ (env : AttemptEnv) (msg : String),
      (attemptDownload dest url stage w hasCb env).2 = Except.error msg →
      ∀ a c, Event.renameFile a c ∉
        (attemptDownload dest url stage w hasCb env).1) ∧
    (∀ env : AttemptEnv,
      (attemptDownload dest url stage w hasCb env).2 = Except.ok () →
      ∃ pre : List Event,
        (attemptDownload dest url stage w hasCb env).1 =
          pre ++ [Event.renameFile (dest ++ ".tmp") dest] ∧
        ∀ a c, Event.renameFile a c ∉ pre) ∧
    (∀ (env : EngineEnv) (msg : String),
      (DownloadWithProgress dest url stage w hasCb env).2 = Except.error msg →
      ∀ a c, Event.renameFile a c ∉
        (DownloadWithProgress dest url stage w hasCb env).1) := by
  refine ⟨?_, ?_, ?_⟩
  · intro env msg h
    exact attemptDownload_error_no_rename dest url stage w hasCb env msg h
  · intro env h
    exact attemptDownload_ok_rename dest url stage w hasCb env h
  · intro env msg h
    exact downloadLoop_error_no_rename dest url stage w hasCb env
      maxRetries 1 "" msg h

/-- An attempt environment in which the HTTP request fails with a plain
connection error; used as a concrete test input. -/
def connRefusedEnv : AttemptEnv :=
  { mkdirErr := none, tempSize := none, reqErr := none,
    doErr := some "connection refused", status := 0, contentLength := 0,
    openErr := none, renameErr := none, tStart := 0, steps := [] }

/-- An engine environment in which every attempt fails with a plain
connection error. -/
def allFailEnv : EngineEnv :=
  { attempts := fun _ => connRefusedEnv, insecureAttempt := connRefusedEnv }

/-- Concrete instance of C1: three attempts failing with a connection error
perform no rename. -/
theorem c1_error_no_rename_witness :
    (DownloadWithProgress "d" "u" "s" 1 false allFailEnv).2 =
      Except.error "download failed after 3 attempts: connection refused" ∧
    Event.renameFile "d.tmp" "d" ∉
      (DownloadWithProgress "d" "u" "s" 1 false allFailEnv).1 :=
  ⟨rfl, (c1_error_no_rename "d" "u" "s" 1 false).2.2 allFailEnv
    "download failed after 3 attempts: connection refused" rfl "d.tmp" "d"⟩

/-- Sleep events, for counting the inter-attempt delays. -/
def isSleep : Event → Bool
  | Event.sleepMs _ => true
  | _ => false

theorem attemptDownload_sleep_count (dest url stage : String) (w : ℚ)
    (hasCb : Bool) (env : AttemptEnv) :
    (attemptDownload dest url stage w hasCb env).1.countP isSleep = 0 := by
  refine List.countP_eq_zero.mpr (fun a ha hp => ?_)
  cases a <;> first
    | exact attemptDownload_no_sleep dest url stage w hasCb env _ ha
    | exact (nomatch hp)

theorem attemptDownloadInsecure_sleep_count (dest url stage : String) (w : ℚ)
    (hasCb : Bool) (env : AttemptEnv) :
    (attemptDownloadInsecure dest url stage w hasCb env).1.countP isSleep = 0 := by
  refine List.countP_eq_zero.mpr (fun a ha hp => ?_)
  cases a <;> first
    | exact attemptDownloadInsecure_no_sleep dest url stage w hasCb env _ ha
    | exact (nomatch hp)

/-- C2: retry bound — when all three verified attempts fail (and, if the
first failure triggers the trusted-host fallback, that insecure attempt
fails too), the engine performs exactly the three attempts separated by
exactly two fixed 2-second sleeps and returns one error naming the attempt
count 3 and wrapping the last attempt's failure; when the first attempt
succeeds the engine returns success immediately with no further attempts
and no sleep. -/
theorem c2_retry_bound :
    (∀ (dest url stage : String) (w : ℚ) (hasCb : Bool) (env : EngineEnv)
        (e1 e2 e3 : String),
      (attemptDownload dest url stage w hasCb (env.attempts 1)).2 =
        Except.error e1 →
      (attemptDownload dest url stage w hasCb (env.attempts 2)).2 =
        Except.error e2 →
      (attemptDownload dest url stage w hasCb (env.attempts 3)).2 =
        Except.error e3 →
      (((1:ℕ) == 1 && isCertError (some e1) && isTrustedSource url) = true →
        ∃ eI, (attemptDownloadInsecure dest url stage w hasCb
          env.insecureAttempt).2 = Except.error eI) →
      (DownloadWithProgress dest url stage w hasCb env).2 =
        Except.error ("download failed after 3 attempts: " ++ e3) ∧
      (DownloadWithProgress dest url stage w hasCb env).1 =
        (attemptDownload dest url stage w hasCb (env.attempts 1)).1 ++
        (if ((1:ℕ) == 1 && isCertError (some e1) && isTrustedSource url) = true
         then (attemptDownloadInsecure dest url stage w hasCb
           env.insecureAttempt).1 else []) ++
        [Event.sleepMs 2000] ++
        (attemptDownload dest url stage w hasCb (env.attempts 2)).1 ++
        [Event.sleepMs 2000] ++
        (attemptDownload dest url stage w hasCb (env.attempts 3)).1 ∧
      (DownloadWithProgress dest url stage w hasCb env).1.countP isSleep = 2) ∧
    (∀ (dest url stage : String) (w : ℚ) (hasCb : Bool) (env : EngineEnv),
      (attemptDownload dest url stage w hasCb (env.attempts 1)).2 =
        Except.ok () →
      DownloadWithProgress dest url stage w hasCb env =
        ((attemptDownload dest url stage w hasCb (env.attempts 1)).1,
          Except.ok ())) := by
  constructor
  · intro dest url stage w hasCb env e1 e2 e3 h1 h2 h3 hI
    have hmr : maxRetries = 2 + 1 := rfl
    rw [DownloadWithProgress, hmr, downloadLoop, h1]
    dsimp only
    by_cases hg : ((1:ℕ) == 1 && isCertError (some e1) && isTrustedSource url) = true
    · obtain ⟨eI, hbI⟩ := hI hg
      rw [if_pos hg, hbI]
      dsimp only
      rw [if_pos (by decide : 1 < maxRetries)]
      rw [show (2:ℕ) = 1 + 1 from rfl, downloadLoop]
      rw [show (1 + 1 : ℕ) = 2 from rfl, h2]
      dsimp only
      rw [show ((2:ℕ) == 1) = false from rfl, Bool.false_and, Bool.false_and]
      rw [if_neg (by decide : ¬ (false = true))]
      rw [if_pos (by decide : 2 < maxRetries)]
      rw [show ((2:ℕ) + 1) = 3 from rfl]
      rw [show (1:ℕ) = 0 + 1 from rfl, downloadLoop, h3]
      dsimp only
      rw [show ((3:ℕ) == 0 + 1) = false from rfl, Bool.false_and, Bool.false_and]
      rw [if_neg (by decide : ¬ (false = true))]
      rw [if_neg (by decide : ¬ (3 < maxRetries))]
      refine ⟨rfl, ?_, ?_⟩
      · rw [if_pos (show ((0 + 1 : ℕ) == 0 + 1 && isCertError (some e1) &&
            isTrustedSource url) = true from hg)]
        simp only [retryDelayMs, List.append_assoc]
      · simp [List.countP_append, List.countP_cons, isSleep, retryDelayMs,
          attemptDownload_sleep_count, attemptDownloadInsecure_sleep_count]
    · rw [if_neg hg]
      rw [if_pos (by decide : 1 < maxRetries)]
      rw [show (2:ℕ) = 1 + 1 from rfl, downloadLoop]
      rw [show (1 + 1 : ℕ) = 2 from rfl, h2]
      dsimp only
      rw [show ((2:ℕ) == 1) = false from rfl, Bool.false_and, Bool.false_and]
      rw [if_neg (by decide : ¬ (false = true))]
      rw [if_pos (by decide : 2 < maxRetries)]
      rw [show ((2:ℕ) + 1) = 3 from rfl]
      rw [show (1:ℕ) = 0 + 1 from rfl, downloadLoop, h3]
      dsimp only
      rw [show ((3:ℕ) == 0 + 1) = false from rfl, Bool.false_and, Bool.false_and]
      rw [if_neg (by decide : ¬ (false = true))]
      rw [if_neg (by decide : ¬ (3 < maxRetries))]
      refine ⟨rfl, ?_, ?_⟩
      · rw [if_neg (show ¬ ((0 + 1 : ℕ) == 0 + 1 && isCertError (some e1) &&
            isTrustedSource url) = true from hg)]
        simp only [retryDelayMs, List.append_nil, List.append_assoc]
      · simp [List.countP_append, List.countP_cons, isSleep, retryDelayMs,
          attemptDownload_sleep_count]
  · intro dest url stage w hasCb env h1
    have hmr : maxRetries = 2 + 1 := rfl
    rw [DownloadWithProgress, hmr, downloadLoop, h1]

/-- An attempt environment in which the server answers 500; used as a
concrete test input. -/
def http500Env : AttemptEnv :=
  { mkdirErr := none, tempSize := none, reqErr := none, doErr := none,
    status := 500, contentLength := 0, openErr := none, renameErr := none,
    tStart := 0, steps := [] }

/-- An engine environment in which every attempt hits the 500 answer. -/
def allFail500Env : EngineEnv :=
  { attempts := fun _ => http500Env, insecureAttempt := http500Env }

/-- Concrete instance of C2: a server always answering 500 yields the
3-attempt error and exactly two sleeps. -/
theorem c2_retry_bound_witness :
    (DownloadWithProgress "d" "u" "s" 1 false allFail500Env).2 =
      Except.error "download failed after 3 attempts: unexpected status code: 500" ∧
    (DownloadWithProgress "d" "u" "s" 1 false allFail500Env).1.countP isSleep = 2 := by
  have h := c2_retry_bound.1 "d" "u" "s" 1 false allFail500Env
    "unexpected status code: 500" "unexpected status code: 500"
    "unexpected status code: 500" rfl rfl rfl (fun hc => absurd hc (by decide))
  exact ⟨h.1, h.2.2⟩

/-- From the second attempt on, the retry loop can never use the insecure
client (the fallback guard requires `attempt == 1`). -/
theorem downloadLoop_no_insecure (dest url stage : String) (w : ℚ)
    (hasCb : Bool) (env : EngineEnv) :
    ∀ (fuel attempt : ℕ) (lastErr : String), 2 ≤ attempt →
      ∀ u, Event.doRequest true u ∉
        (downloadLoop dest url stage w hasCb env attempt lastErr fuel).1 := by
  intro fuel
  induction fuel with
  | zero =>
    intro attempt lastErr h2 u
    simp [downloadLoop]
  | succ fuel ih =>
    intro attempt lastErr h2 u
    rw [downloadLoop]
    have hbeq : (attempt == 1) = false := by
      rw [beq_eq_false_iff_ne]
      omega
    cases ha : (attemptDownload dest url stage w hasCb (env.attempts attempt)).2 with
    | ok u2 =>
      dsimp only
      exact attemptDownload_no_insecure_request dest url stage w hasCb
        (env.attempts attempt) u
    | error e =>
      dsimp only
      rw [hbeq, Bool.false_and, Bool.false_and,
        if_neg (by decide : ¬ (false = true))]
      by_cases hlt : attempt < maxRetries
      · rw [if_pos hlt]
        intro hm
        simp only [List.append_assoc, List.mem_append, List.mem_cons,
          List.not_mem_nil, or_false] at hm
        rcases hm with h1 | h2' | h3
        · exact attemptDownload_no_insecure_request dest url stage w hasCb
            (env.attempts attempt) u h1
        · cases h2'
        · exact ih (attempt + 1) e (by omega) u h3
      · rw [if_neg hlt]
        exact attemptDownload_no_insecure_request dest url stage w hasCb
          (env.attempts attempt) u

/-- C3 (amended): only a FIRST-attempt failure classified certificate-related
on a trusted URL triggers the insecure client, exactly once and before any
inter-attempt delay; if that insecure attempt succeeds the engine returns
success; when the first attempt's error is not certificate-related or the
URL is untrusted, the insecure client is never used at all (in particular
cert failures on attempts 2 and 3 never trigger it). -/
theorem c3_insecure_fallback_amended (dest url stage : String) (w : ℚ)
    (hasCb : Bool) (env : EngineEnv) (e1 : String)
    (h1 : (attemptDownload dest url stage w hasCb (env.attempts 1)).2 =
      Except.error e1) :
    ((isCertError (some e1) && isTrustedSource url) = true →
      ((attemptDownloadInsecure dest url stage w hasCb env.insecureAttempt).2 =
          Except.ok () →
        DownloadWithProgress dest url stage w hasCb env =
          ((attemptDownload dest url stage w hasCb (env.attempts 1)).1 ++
            (attemptDownloadInsecure dest url stage w hasCb
              env.insecureAttempt).1, Except.ok ())) ∧
      (∀ eI, (attemptDownloadInsecure dest url stage w hasCb
          env.insecureAttempt).2 = Except.error eI →
        ∃ rest : List Event,
          (DownloadWithProgress dest url stage w hasCb env).1 =
            (attemptDownload dest url stage w hasCb (env.attempts 1)).1 ++
            (attemptDownloadInsecure dest url stage w hasCb
              env.insecureAttempt).1 ++
            [Event.sleepMs retryDelayMs] ++ rest ∧
          ∀ u, Event.doRequest true u ∉ rest)) ∧
    ((isCertError (some e1) && isTrustedSource url) = false →
      ∀ u, Event.doRequest true u ∉
        (DownloadWithProgress dest url stage w hasCb env).1) := by
  have hmr : maxRetries = 2 + 1 := rfl
  constructor
  · intro hc
    have hg : ((1:ℕ) == 1 && isCertError (some e1) && isTrustedSource url)
        = true := by
      rw [show ((1:ℕ) == 1) = true from rfl, Bool.true_and]
      exact hc
    constructor
    · intro hIok
      rw [DownloadWithProgress, hmr, downloadLoop, h1]
      dsimp only
      rw [if_pos hg, hIok]
    · intro eI hbI
      rw [DownloadWithProgress, hmr, downloadLoop, h1]
      dsimp only
      rw [if_pos hg, hbI]
      dsimp only
      rw [if_pos (by decide : 1 < maxRetries)]
      refine ⟨(downloadLoop dest url stage w hasCb env (1 + 1) eI 2).1,
        rfl, ?_⟩
      intro u
      exact downloadLoop_no_insecure dest url stage w hasCb env 2 (1 + 1) eI
        (by omega) u
  · intro hc
    have hgf : ((1:ℕ) == 1 && isCertError (some e1) && isTrustedSource url)
        = false := by
      rw [show ((1:ℕ) == 1) = true from rfl, Bool.true_and]
      exact hc
    rw [DownloadWithProgress, hmr, downloadLoop, h1]
    dsimp only
    rw [hgf, if_neg (by decide : ¬ (false = true))]
    rw [if_pos (by decide : 1 < maxRetries)]
    intro u hm
    simp only [List.append_assoc, List.mem_append, List.mem_cons,
      List.not_mem_nil, or_false] at hm
    rcases hm with hA | hB | hC
    · exact attemptDownload_no_insecure_request dest url stage w hasCb
        (env.attempts 1) u hA
    · cases hB
    · exact downloadLoop_no_insecure dest url stage w hasCb env 2 (1 + 1) e1
        (by omega) u hC

/-- First attempt fails with a non-certificate error. -/
def c3FirstFailEnv : AttemptEnv :=
  { mkdirErr := some "connection refused", tempSize := none, reqErr := none,
    doErr := none, status := 0, contentLength := 0, openErr := none,
    renameErr := none, tStart := 0, steps := [] }

/-- Later attempts fail with a certificate error. -/
def c3CertFailEnv : AttemptEnv :=
  { mkdirErr := some "x509: certificate signed by unknown authority",
    tempSize := none, reqErr := none, doErr := none, status := 0,
    contentLength := 0, openErr := none, renameErr := none, tStart := 0,
    steps := [] }

/-- The insecure client would succeed: 200 answer, one final chunk. -/
def c3InsecureOkEnv : AttemptEnv :=
  { mkdirErr := none, tempSize := none, reqErr := none, doErr := none,
    status := 200, contentLength := 1, openErr := none, renameErr := none,
    tStart := 0, steps := [⟨1, none, 0, 0, ReadRes.eof⟩] }

/-- Engine environment where only the later attempts fail with a
certificate error. -/
def c3Eng : EngineEnv :=
  { attempts := fun i => if i = 1 then c3FirstFailEnv else c3CertFailEnv,
    insecureAttempt := c3InsecureOkEnv }

/-- Counterexample to C3 as stated: the SECOND verified attempt fails with a
certificate-classified error, the URL is trusted, and the insecure client
would succeed — yet the engine never issues an insecure request (the
fallback guard requires `attempt == 1`) and the call fails. -/
theorem c3_insecure_fallback_counterexample :
    (attemptDownload "d" "https://github.com/o/r" "s" 1 false
      (c3Eng.attempts 2)).2 =
      Except.error
        "failed to create directory: x509: certificate signed by unknown authority" ∧
    isCertError
      (some "failed to create directory: x509: certificate signed by unknown authority")
      = true ∧
    isTrustedSource "https://github.com/o/r" = true ∧
    (attemptDownloadInsecure "d" "https://github.com/o/r" "s" 1 false
      c3Eng.insecureAttempt).2 = Except.ok () ∧
    (DownloadWithProgress "d" "https://github.com/o/r" "s" 1 false c3Eng).1 =
      [Event.sleepMs 2000, Event.sleepMs 2000] ∧
    (DownloadWithProgress "d" "https://github.com/o/r" "s" 1 false c3Eng).2 =
      Except.error
        ("download failed after 3 attempts: " ++
          "failed to create directory: x509: certificate signed by unknown authority") :=
  ⟨rfl, by decide, by decide, rfl, rfl, rfl⟩

/-- Engine environment whose first attempt fails with a certificate error
and whose insecure attempt succeeds. -/
def c3aEng : EngineEnv :=
  { attempts := fun _ => c3CertFailEnv, insecureAttempt := c3InsecureOkEnv }

/-- Concrete instance of the amended C3: a first-attempt certificate failure
on a trusted URL is followed by the one insecure attempt, whose success is
returned. -/
theorem c3_insecure_fallback_amended_witness :
    DownloadWithProgress "d" "https://github.com/o/r" "s" 1 false c3aEng =
      ((attemptDownload "d" "https://github.com/o/r" "s" 1 false
          (c3aEng.attempts 1)).1 ++
        (attemptDownloadInsecure "d" "https://github.com/o/r" "s" 1 false
          c3aEng.insecureAttempt).1, Except.ok ()) :=
  ((c3_insecure_fallback_amended "d" "https://github.com/o/r" "s" 1 false c3aEng
    "failed to create directory: x509: certificate signed by unknown authority"
    rfl).1 (by decide)).1 rfl

/-- Localization of the Range-header event inside the shared attempt core. -/
theorem attemptCore_setRange (b : Bool) (dest url stage : String) (w : ℚ)
    (hasCb : Bool) (env : AttemptEnv) (rangeEvs : List Event)
    (resumeFrom k : ℤ) :
    Event.setRange k ∈
      (attemptCore b dest url stage w hasCb env rangeEvs resumeFrom).1 ↔
      (env.mkdirErr = none ∧ env.reqErr = none ∧
        Event.setRange k ∈ rangeEvs) := by
  simp only [attemptCore]
  cases hm : env.mkdirErr with
  | some e => simp
  | none =>
  cases hq : env.reqErr with
  | some e => simp
  | none =>
  cases hd : env.doErr with
  | some e => simp
  | none =>
  by_cases hs : env.status ≠ 200 ∧ env.status ≠ 206
  · rw [if_pos hs]
    simp
  · rw [if_neg hs]
    cases ho : env.openErr with
    | some e => simp
    | none =>
      have hloop : Event.setRange k ∉ (readLoop (dest ++ ".tmp") stage w hasCb
          dest (env.contentLength + if env.status = 206 then resumeFrom else 0)
          env.steps (if env.status = 206 then resumeFrom else 0)
          (if env.status = 206 then resumeFrom else 0) env.tStart).1 :=
        not_mem_of_all _ (readLoop_all _ _ _ _ _ _ _ _ _ _) rfl
      have hopen : Event.setRange k ≠
          (if env.status = 206 then Event.openAppend (dest ++ ".tmp")
           else Event.createFile (dest ++ ".tmp")) := by
        split <;> simp
      cases hl : (readLoop (dest ++ ".tmp") stage w hasCb
          dest (env.contentLength + if env.status = 206 then resumeFrom else 0)
          env.steps (if env.status = 206 then resumeFrom else 0)
          (if env.status = 206 then resumeFrom else 0) env.tStart).2 with
      | error e =>
        dsimp only
        simp [hloop, hopen]
      | ok u =>
        cases hr : env.renameErr with
        | some e =>
          dsimp only
          simp [hloop, hopen]
        | none =>
          dsimp only
          simp [hloop, hopen]

/-- C5: resume request construction — the attempt sends the header
`Range: bytes={k}-` if and only if it got past directory creation and
request construction and the temp file `{destination}.tmp` exists with size
`k > 0` (its stat size is the resume offset); with no temp file, or an
empty one, no Range header is sent. -/
theorem c5_resume_range (dest url stage : String) (w : ℚ) (hasCb : Bool)
    (env : AttemptEnv) (k : ℤ) :
    Event.setRange k ∈ (attemptDownload dest url stage w hasCb env).1 ↔
      (env.mkdirErr = none ∧ env.reqErr = none ∧
        ∃ sz : ℕ, env.tempSize = some sz ∧ 0 < sz ∧ k = sz) := by
  rw [attemptDownload_eq_core, attemptCore_setRange]
  have hiff : Event.setRange k ∈ rangeEvents (resumeOf env) ↔
      (∃ sz : ℕ, env.tempSize = some sz ∧ 0 < sz ∧ k = sz) := by
    rw [rangeEvents, resumeOf]
    cases ht : env.tempSize with
    | none => simp
    | some sz =>
      simp only [Option.getD_some]
      by_cases hsz : (0:ℤ) < (sz:ℕ)
      · rw [if_pos hsz]
        simp only [List.mem_singleton, Event.setRange.injEq, Option.some.injEq]
        constructor
        · intro hk
          exact ⟨sz, rfl, by exact_mod_cast hsz, hk⟩
        · rintro ⟨sz2, rfl, hpos, hk⟩
          exact hk
      · rw [if_neg hsz]
        simp only [List.not_mem_nil, false_iff, not_exists, Option.some.injEq]
        rintro sz2 ⟨rfl, hpos, -⟩
        exact hsz (by exact_mod_cast hpos)
  rw [hiff]

/-- Concrete instance of C5: a 5-byte temp file yields the Range offset 5. -/
theorem c5_resume_range_witness :
    Event.setRange 5 ∈ (attemptDownload "d" "u" "s" 1 false
      { mkdirErr := none, tempSize := some 5, reqErr := none,
        doErr := some "connection reset", status := 0, contentLength := 0,
        openErr := none, renameErr := none, tStart := 0, steps := [] }).1 :=
  (c5_resume_range "d" "u" "s" 1 false
    { mkdirErr := none, tempSize := some 5, reqErr := none,
      doErr := some "connection reset", status := 0, contentLength := 0,
      openErr := none, renameErr := none, tStart := 0, steps := [] } 5).mpr
    ⟨rfl, rfl, 5, rfl, by decide, by decide⟩

/-- Every progress event's reported total matches `total`. -/
def totalsOk (total : ℤ) : Event → Bool
  | Event.progressCb _ _ _ _ _ _ t _ => t == total
  | _ => true

/-- The `total` values reported by the progress events of a trace. -/
def progressTotals (l : List Event) : List ℤ :=
  l.filterMap fun e =>
    match e with
    | Event.progressCb _ _ _ _ _ _ t _ => some t
    | _ => none

theorem readLoop_totals (tempDest stage : String) (w : ℚ) (hasCb : Bool)
    (dest : String) (total : ℤ) :
    ∀ (steps : List ReadStep) (d ld : ℤ) (lu : ℕ),
      (readLoop tempDest stage w hasCb dest total steps d ld lu).1.all
        (totalsOk total) = true := by
  intro steps
  induction steps with
  | nil => intro d ld lu; rfl
  | cons step rest ih =>
    intro d ld lu
    rw [readLoop]
    by_cases hn : 0 < step.n
    · rw [if_pos hn]
      cases hw : step.writeErr with
      | some e => rfl
      | none =>
        cases hr : step.res with
        | ok =>
          simp only [List.all_cons, List.all_append, Bool.and_eq_true, ih,
            and_true]
          refine ⟨rfl, ?_⟩
          split <;> simp [totalsOk]
        | eof =>
          simp only [List.all_cons, Bool.and_eq_true]
          refine ⟨rfl, ?_⟩
          split <;> simp [totalsOk]
        | errR e =>
          simp only [List.all_cons, Bool.and_eq_true]
          refine ⟨rfl, ?_⟩
          split <;> simp [totalsOk]
    · rw [if_neg hn]
      cases hr : step.res with
      | ok => exact ih _ _ _
      | eof => rfl
      | errR e => rfl

theorem mem_progressTotals_of_all {l : List Event} {T : ℤ}
    (h : l.all (totalsOk T) = true) : ∀ x ∈ progressTotals l, x = T := by
  induction l with
  | nil => simp [progressTotals]
  | cons e t ih =>
    simp only [List.all_cons, Bool.and_eq_true] at h
    intro x hx
    cases e with
    | progressCb s p m f sp d tot tt =>
      simp only [progressTotals, List.filterMap_cons] at hx
      rcases List.mem_cons.mp hx with rfl | hx2
      · exact eq_of_beq h.1
      · exact ih h.2 x hx2
    | mkdirAll a => exact ih h.2 x (by simpa [progressTotals, List.filterMap_cons] using hx)
    | setRange a => exact ih h.2 x (by simpa [progressTotals, List.filterMap_cons] using hx)
    | doRequest a b => exact ih h.2 x (by simpa [progressTotals, List.filterMap_cons] using hx)
    | openAppend a => exact ih h.2 x (by simpa [progressTotals, List.filterMap_cons] using hx)
    | createFile a => exact ih h.2 x (by simpa [progressTotals, List.filterMap_cons] using hx)
    | writeBytes a b => exact ih h.2 x (by simpa [progressTotals, List.filterMap_cons] using hx)
    | simpleProgress a b c => exact ih h.2 x (by simpa [progressTotals, List.filterMap_cons] using hx)
    | renameFile a b => exact ih h.2 x (by simpa [progressTotals, List.filterMap_cons] using hx)
    | sleepMs a => exact ih h.2 x (by simpa [progressTotals, List.filterMap_cons] using hx)

theorem rangeEvents_totals (T r : ℤ) :
    (rangeEvents r).all (totalsOk T) = true := by
  rw [rangeEvents]
  split <;> rfl

/-- C4: reset-before-total ordering — when the attempt reaches the response:
on a 200 status the temp file is recreated from scratch (`os.Create`) and
the resume offset is reset to 0 before the total is computed, so every
progress event reports total = content-length exactly, even when a nonzero
resume offset was in effect; on a 206 status the temp file is opened for
append and every progress event reports total = content-length + resume
offset (`resumeOf env` = the temp file's stat size). -/
theorem c4_reset_before_total (dest url stage : String) (w : ℚ)
    (hasCb : Bool) (env : AttemptEnv) (hm : env.mkdirErr = none)
    (hq : env.reqErr = none) (hd : env.doErr = none) (ho : env.openErr = none) :
    (env.status = 200 →
      Event.createFile (dest ++ ".tmp") ∈
        (attemptDownload dest url stage w hasCb env).1 ∧
      ∀ T ∈ progressTotals (attemptDownload dest url stage w hasCb env).1,
        T = env.contentLength) ∧
    (env.status = 206 →
      Event.openAppend (dest ++ ".tmp") ∈
        (attemptDownload dest url stage w hasCb env).1 ∧
      ∀ T ∈ progressTotals (attemptDownload dest url stage w hasCb env).1,
        T = env.contentLength + resumeOf env) := by
  rw [attemptDownload_eq_core]
  constructor
  · intro h200
    have hs : ¬ (env.status ≠ 200 ∧ env.status ≠ 206) := by simp [h200]
    have h206 : ¬ env.status = 206 := by simp [h200]
    simp only [attemptCore, hm, hq, hd, ho]
    rw [if_neg hs, if_neg h206, if_neg h206, add_zero]
    cases hl : (readLoop (dest ++ ".tmp") stage w hasCb dest
        env.contentLength env.steps 0 0 env.tStart).2 with
    | error e =>
      dsimp only
      refine ⟨by simp, fun T hT => mem_progressTotals_of_all ?_ T hT⟩
      simp [List.all_append, List.all_cons, List.all_nil, totalsOk,
        readLoop_totals, rangeEvents_totals]
    | ok u =>
      cases hr : env.renameErr with
      | some e =>
        dsimp only
        refine ⟨by simp, fun T hT => mem_progressTotals_of_all ?_ T hT⟩
        simp [List.all_append, List.all_cons, List.all_nil, totalsOk,
          readLoop_totals, rangeEvents_totals]
      | none =>
        dsimp only
        refine ⟨by simp, fun T hT => mem_progressTotals_of_all ?_ T hT⟩
        simp [List.all_append, List.all_cons, List.all_nil, totalsOk,
          readLoop_totals, rangeEvents_totals]
  · intro h206
    have hs : ¬ (env.status ≠ 200 ∧ env.status ≠ 206) := by simp [h206]
    simp only [attemptCore, hm, hq, hd, ho]
    rw [if_neg hs, if_pos h206, if_pos h206]
    cases hl : (readLoop (dest ++ ".tmp") stage w hasCb dest
        (env.contentLength + resumeOf env) env.steps (resumeOf env)
        (resumeOf env) env.tStart).2 with
    | error e =>
      dsimp only
      refine ⟨by simp, fun T hT => mem_progressTotals_of_all ?_ T hT⟩
      simp [List.all_append, List.all_cons, List.all_nil, totalsOk,
        readLoop_totals, rangeEvents_totals]
    | ok u =>
      cases hr : env.renameErr with
      | some e =>
        dsimp only
        refine ⟨by simp, fun T hT => mem_progressTotals_of_all ?_ T hT⟩
        simp [List.all_append, List.all_cons, List.all_nil, totalsOk,
          readLoop_totals, rangeEvents_totals]
      | none =>
        dsimp only
        refine ⟨by simp, fun T hT => mem_progressTotals_of_all ?_ T hT⟩
        simp [List.all_append, List.all_cons, List.all_nil, totalsOk,
          readLoop_totals, rangeEvents_totals]

/-- Concrete instance of C4: a 200 answer after a 7-byte temp file recreates
the temp file and reports totals without the stale offset. -/
theorem c4_reset_before_total_witness :
    Event.createFile "d.tmp" ∈ (attemptDownload "d" "u" "s" 1 true
      { mkdirErr := none, tempSize := some 7, reqErr := none, doErr := none,
        status := 200, contentLength := 10, openErr := none,
        renameErr := none, tStart := 0,
        steps := [⟨10, none, 150, 150, ReadRes.eof⟩] }).1 :=
  ((c4_reset_before_total "d" "u" "s" 1 true
    { mkdirErr := none, tempSize := some 7, reqErr := none, doErr := none,
      status := 200, contentLength := 10, openErr := none,
      renameErr := none, tStart := 0,
      steps := [⟨10, none, 150, 150, ReadRes.eof⟩] }
    rfl rfl rfl rfl).1 rfl).1

/-! ### Temporal properties of the progress callback (C7) -/

/-- Well-formed clock readings for a run: the throttle-check time of each
iteration is at or after the previous `lastUpdate` reset, and the reset is
at or after the check (time is monotone). -/
def timesOk : ℕ → List ReadStep → Bool
  | _, [] => true
  | t, s :: rest =>
    decide (t ≤ s.tRead) && decide (s.tRead ≤ s.tAfter) && timesOk s.tAfter rest

/-- The progress events of a trace fire at most once per 100 ms: each fires
at least 100 ms after `base` (stream start resp. the previous firing). -/
def throttleOk : ℕ → List Event → Bool
  | _, [] => true
  | base, Event.progressCb _ _ _ _ _ _ _ t :: rest =>
    decide (base + 100 ≤ t) && throttleOk t rest
  | base, _ :: rest => throttleOk base rest

/-- Every progress event of a trace reports `downloaded` = the resume
offset plus the bytes written (to the temp file) before it. -/
def progOk (resume : ℤ) : ℤ → List Event → Bool
  | _, [] => true
  | written, Event.writeBytes _ n :: rest => progOk resume (written + n) rest
  | written, Event.progressCb _ _ _ _ _ d _ _ :: rest =>
    decide (d = resume + written) && progOk resume written rest
  | written, _ :: rest => progOk resume written rest

/-- Events that are neither writes nor progress callbacks. -/
def quietEvent : Event → Bool
  | Event.writeBytes _ _ => false
  | Event.progressCb _ _ _ _ _ _ _ _ => false
  | _ => true

theorem timesOk_mono : ∀ (steps : List ReadStep) (t t' : ℕ), t ≤ t' →
    timesOk t' steps = true → timesOk t steps = true := by
  intro steps t t' hle h
  cases steps with
  | nil => rfl
  | cons s rest =>
    simp only [timesOk, Bool.and_eq_true, decide_eq_true_eq] at h ⊢
    exact ⟨⟨by omega, h.1.2⟩, h.2⟩

theorem throttleOk_append_quiet : ∀ (l : List Event),
    l.all quietEvent = true → ∀ (base : ℕ) (rest : List Event),
      throttleOk base (l ++ rest) = throttleOk base rest := by
  intro l
  induction l with
  | nil => intro h base rest; rfl
  | cons e t ih =>
    intro h base rest
    simp only [List.all_cons, Bool.and_eq_true] at h
    cases e with
    | progressCb s p m f sp d tot tt => exact absurd h.1 (by simp [quietEvent])
    | writeBytes a b => exact absurd h.1 (by simp [quietEvent])
    | mkdirAll a => exact ih h.2 base rest
    | setRange a => exact ih h.2 base rest
    | doRequest a b => exact ih h.2 base rest
    | openAppend a => exact ih h.2 base rest
    | createFile a => exact ih h.2 base rest
    | simpleProgress a b c => exact ih h.2 base rest
    | renameFile a b => exact ih h.2 base rest
    | sleepMs a => exact ih h.2 base rest

theorem progOk_append_quiet : ∀ (l : List Event),
    l.all quietEvent = true → ∀ (r w : ℤ) (rest : List Event),
      progOk r w (l ++ rest) = progOk r w rest := by
  intro l
  induction l with
  | nil => intro h r w rest; rfl
  | cons e t ih =>
    intro h r w rest
    simp only [List.all_cons, Bool.and_eq_true] at h
    cases e with
    | progressCb s p m f sp d tot tt => exact absurd h.1 (by simp [quietEvent])
    | writeBytes a b => exact absurd h.1 (by simp [quietEvent])
    | mkdirAll a => exact ih h.2 r w rest
    | setRange a => exact ih h.2 r w rest
    | doRequest a b => exact ih h.2 r w rest
    | openAppend a => exact ih h.2 r w rest
    | createFile a => exact ih h.2 r w rest
    | simpleProgress a b c => exact ih h.2 r w rest
    | renameFile a b => exact ih h.2 r w rest
    | sleepMs a => exact ih h.2 r w rest

theorem throttleOk_append_end : ∀ (l : List Event) (base : ℕ),
    throttleOk base l = true → ∀ (l2 : List Event), l2.all quietEvent = true →
      throttleOk base (l ++ l2) = true := by
  intro l
  induction l with
  | nil =>
    intro base h l2 h2
    have h3 := throttleOk_append_quiet l2 h2 base []
    rw [List.append_nil] at h3
    rw [List.nil_append, h3]
    rfl
  | cons e t ih =>
    intro base h l2 h2
    cases e with
    | progressCb s p m f sp d tot tt =>
      simp only [throttleOk, Bool.and_eq_true] at h ⊢
      exact ⟨h.1, ih tt h.2 l2 h2⟩
    | mkdirAll a => exact ih base h l2 h2
    | setRange a => exact ih base h l2 h2
    | doRequest a b => exact ih base h l2 h2
    | openAppend a => exact ih base h l2 h2
    | createFile a => exact ih base h l2 h2
    | writeBytes a b => exact ih base h l2 h2
    | simpleProgress a b c => exact ih base h l2 h2
    | renameFile a b => exact ih base h l2 h2
    | sleepMs a => exact ih base h l2 h2

theorem progOk_append_end : ∀ (l : List Event) (r w : ℤ),
    progOk r w l = true → ∀ (l2 : List Event), l2.all quietEvent = true →
      progOk r w (l ++ l2) = true := by
  intro l
  induction l with
  | nil =>
    intro r w h l2 h2
    have h3 := progOk_append_quiet l2 h2 r w []
    rw [List.append_nil] at h3
    rw [List.nil_append, h3]
    rfl
  | cons e t ih =>
    intro r w h l2 h2
    cases e with
    | progressCb s p m f sp d tot tt =>
      simp only [progOk, Bool.and_eq_true] at h ⊢
      exact ⟨h.1, ih r w h.2 l2 h2⟩
    | writeBytes a b =>
      simp only [progOk] at h ⊢
      exact ih r (w + b) h l2 h2
    | mkdirAll a => exact ih r w h l2 h2
    | setRange a => exact ih r w h l2 h2
    | doRequest a b => exact ih r w h l2 h2
    | openAppend a => exact ih r w h l2 h2
    | createFile a => exact ih r w h l2 h2
    | simpleProgress a b c => exact ih r w h l2 h2
    | renameFile a b => exact ih r w h l2 h2
    | sleepMs a => exact ih r w h l2 h2

theorem readLoop_throttle (tempDest stage : String) (w : ℚ) (hasCb : Bool)
    (dest : String) (total : ℤ) :
    ∀ (steps : List ReadStep) (d ld : ℤ) (lu base : ℕ),
      base ≤ lu → timesOk lu steps = true →
      throttleOk base
        (readLoop tempDest stage w hasCb dest total steps d ld lu).1 = true := by
  intro steps
  induction steps with
  | nil => intro d ld lu base hb ht; rfl
  | cons step rest ih =>
    intro d ld lu base hb ht
    simp only [timesOk, Bool.and_eq_true, decide_eq_true_eq] at ht
    obtain ⟨⟨h1, h2⟩, h3⟩ := ht
    simp only [readLoop]
    by_cases hn : 0 < step.n
    · rw [if_pos hn]
      cases hw : step.writeErr with
      | some e => rfl
      | none =>
        by_cases hemit : (decide (lu + 100 ≤ step.tRead) && hasCb) = true
        · have hemit2 := hemit
          simp only [Bool.and_eq_true, decide_eq_true_eq] at hemit2
          have hcheck : lu + 100 ≤ step.tRead := hemit2.1
          rw [if_pos hemit, if_pos hemit, if_pos hemit]
          cases hr : step.res with
          | ok =>
            simp only [List.singleton_append, throttleOk, Bool.and_eq_true,
              decide_eq_true_eq]
            exact ⟨by omega, ih _ _ _ _ h2 h3⟩
          | eof =>
            simp only [List.singleton_append, throttleOk, Bool.and_eq_true,
              decide_eq_true_eq]
            exact ⟨by omega, trivial⟩
          | errR e =>
            simp only [List.singleton_append, throttleOk, Bool.and_eq_true,
              decide_eq_true_eq]
            exact ⟨by omega, trivial⟩
        · rw [if_neg hemit, if_neg hemit, if_neg hemit]
          cases hr : step.res with
          | ok =>
            simp only [List.nil_append, throttleOk]
            exact ih _ _ _ _ hb (timesOk_mono rest lu step.tAfter
              (by omega) h3)
          | eof => rfl
          | errR e => rfl
    · rw [if_neg hn]
      cases hr : step.res with
      | ok =>
        exact ih _ _ _ _ hb (timesOk_mono rest lu step.tAfter (by omega) h3)
      | eof => rfl
      | errR e => rfl

theorem readLoop_progOk (tempDest stage : String) (w : ℚ) (hasCb : Bool)
    (dest : String) (total : ℤ) :
    ∀ (steps : List ReadStep) (d ld : ℤ) (lu : ℕ) (resume written : ℤ),
      d = resume + written →
      progOk resume written
        (readLoop tempDest stage w hasCb dest total steps d ld lu).1 = true := by
  intro steps
  induction steps with
  | nil => intro d ld lu resume written hd; rfl
  | cons step rest ih =>
    intro d ld lu resume written hd
    simp only [readLoop]
    by_cases hn : 0 < step.n
    · rw [if_pos hn]
      cases hw : step.writeErr with
      | some e => rfl
      | none =>
        by_cases hemit : (decide (lu + 100 ≤ step.tRead) && hasCb) = true
        · rw [if_pos hemit, if_pos hemit, if_pos hemit]
          cases hr : step.res with
          | ok =>
            simp only [List.singleton_append, progOk, Bool.and_eq_true,
              decide_eq_true_eq]
            exact ⟨by omega, ih _ _ _ _ _ (by omega)⟩
          | eof =>
            simp only [List.singleton_append, progOk, Bool.and_eq_true,
              decide_eq_true_eq]
            exact ⟨by omega, trivial⟩
          | errR e =>
            simp only [List.singleton_append, progOk, Bool.and_eq_true,
              decide_eq_true_eq]
            exact ⟨by omega, trivial⟩
        · rw [if_neg hemit, if_neg hemit, if_neg hemit]
          cases hr : step.res with
          | ok =>
            simp only [List.nil_append, progOk]
            exact ih _ _ _ _ _ (by omega)
          | eof => rfl
          | errR e => rfl
    · rw [if_neg hn]
      cases hr : step.res with
      | ok => exact ih _ _ _ _ _ hd
      | eof => rfl
      | errR e => rfl

theorem throttleOk_of_quiet (l : List Event) (h : l.all quietEvent = true)
    (base : ℕ) : throttleOk base l = true := by
  have h3 := throttleOk_append_quiet l h base []
  rw [List.append_nil] at h3
  rw [h3]
  rfl

theorem progOk_of_quiet (l : List Event) (h : l.all quietEvent = true)
    (r w : ℤ) : progOk r w l = true := by
  have h3 := progOk_append_quiet l h r w []
  rw [List.append_nil] at h3
  rw [h3]
  rfl

theorem rangeEvents_quiet (r : ℤ) : (rangeEvents r).all quietEvent = true := by
  rw [rangeEvents]
  split <;> rfl

/-- The resume offset actually in effect after the status check: the temp
file's size on a 206 answer, 0 after the reset on a 200 answer. -/
def effectiveResume (env : AttemptEnv) : ℤ :=
  if env.status = 206 then resumeOf env else 0

/-- C7: progress throttling and reported byte counts — under monotone clock
readings (`timesOk`), consecutive progress-callback invocations of one
attempt are at least 100 ms apart (and the first at least 100 ms after
stream start), and every invocation reports `downloaded` equal to the
effective resume offset plus the bytes written to the temp file before it,
so the reported count at each emission equals the bytes then on disk. -/
theorem c7_progress_reporting (dest url stage : String) (w : ℚ)
    (hasCb : Bool) (env : AttemptEnv) :
    (timesOk env.tStart env.steps = true →
      throttleOk env.tStart
        (attemptDownload dest url stage w hasCb env).1 = true) ∧
    progOk (effectiveResume env) 0
      (attemptDownload dest url stage w hasCb env).1 = true := by
  rw [attemptDownload_eq_core]
  simp only [effectiveResume]
  have hq1 : ([Event.mkdirAll dest] ++ rangeEvents (resumeOf env) ++
      [Event.doRequest false url]).all quietEvent = true := by
    simp only [List.all_append, List.all_cons, List.all_nil, Bool.and_eq_true,
      Bool.and_true]
    exact ⟨⟨rfl, rangeEvents_quiet (resumeOf env)⟩, rfl⟩
  have hq2 : (([Event.mkdirAll dest] ++ rangeEvents (resumeOf env) ++
      [Event.doRequest false url]) ++
      [if env.status = 206 then Event.openAppend (dest ++ ".tmp")
       else Event.createFile (dest ++ ".tmp")]).all quietEvent = true := by
    simp only [List.all_append, List.all_cons, List.all_nil, Bool.and_eq_true,
      Bool.and_true] at hq1 ⊢
    refine ⟨hq1, ?_⟩
    split <;> rfl
  simp only [attemptCore]
  cases hm : env.mkdirErr with
  | some e => exact ⟨fun _ => rfl, rfl⟩
  | none =>
  cases hq : env.reqErr with
  | some e => exact ⟨fun _ => rfl, rfl⟩
  | none =>
  cases hd : env.doErr with
  | some e =>
    exact ⟨fun _ => throttleOk_of_quiet _ hq1 _, progOk_of_quiet _ hq1 _ _⟩
  | none =>
  by_cases hs : env.status ≠ 200 ∧ env.status ≠ 206
  · rw [if_pos hs]
    exact ⟨fun _ => throttleOk_of_quiet _ hq1 _, progOk_of_quiet _ hq1 _ _⟩
  · rw [if_neg hs]
    cases ho : env.openErr with
    | some e =>
      exact ⟨fun _ => throttleOk_of_quiet _ hq1 _, progOk_of_quiet _ hq1 _ _⟩
    | none =>
      cases hl : (readLoop (dest ++ ".tmp") stage w hasCb dest
          (env.contentLength + if env.status = 206 then resumeOf env else 0)
          env.steps (if env.status = 206 then resumeOf env else 0)
          (if env.status = 206 then resumeOf env else 0) env.tStart).2 with
      | error e =>
        dsimp only
        constructor
        · intro htimes
          rw [throttleOk_append_quiet _ hq2]
          exact readLoop_throttle _ _ _ _ _ _ _ _ _ _ _
            (le_refl env.tStart) htimes
        · rw [progOk_append_quiet _ hq2]
          exact readLoop_progOk _ _ _ _ _ _ _ _ _ _ _ _ (add_zero _).symm
      | ok u =>
        cases hr : env.renameErr with
        | some e =>
          dsimp only
          constructor
          · intro htimes
            rw [throttleOk_append_quiet _ hq2]
            exact readLoop_throttle _ _ _ _ _ _ _ _ _ _ _
              (le_refl env.tStart) htimes
          · rw [progOk_append_quiet _ hq2]
            exact readLoop_progOk _ _ _ _ _ _ _ _ _ _ _ _ (add_zero _).symm
        | none =>
          dsimp only
          constructor
          · intro htimes
            rw [List.append_assoc, throttleOk_append_quiet _ hq2]
            exact throttleOk_append_end _ _
              (readLoop_throttle _ _ _ _ _ _ _ _ _ _ _
                (le_refl env.tStart) htimes) _ rfl
          · rw [List.append_assoc, progOk_append_quiet _ hq2]
            exact progOk_append_end _ _ _
              (readLoop_progOk _ _ _ _ _ _ _ _ _ _ _ _ (add_zero _).symm) _ rfl

/-- Concrete instance of C7: a resumed 206 transfer with two chunks reports
throttled, on-disk-accurate progress. -/
theorem c7_progress_reporting_witness :
    timesOk 0 [⟨4, none, 150, 151, ReadRes.ok⟩,
      ⟨6, none, 300, 301, ReadRes.eof⟩] = true ∧
    throttleOk 0 (attemptDownload "d" "u" "s" 1 true
      { mkdirErr := none, tempSize := some 5, reqErr := none, doErr := none,
        status := 206, contentLength := 10, openErr := none,
        renameErr := none, tStart := 0,
        steps := [⟨4, none, 150, 151, ReadRes.ok⟩,
          ⟨6, none, 300, 301, ReadRes.eof⟩] }).1 = true :=
  ⟨by decide, (c7_progress_reporting "d" "u" "s" 1 true
    { mkdirErr := none, tempSize := some 5, reqErr := none, doErr := none,
      status := 206, contentLength := 10, openErr := none,
      renameErr := none, tStart := 0,
      steps := [⟨4, none, 150, 151, ReadRes.ok⟩,
        ⟨6, none, 300, 301, ReadRes.eof⟩] }).1 (by decide)⟩

/-! ### Equivalence of the two attempt procedures (C9) -/

/-- Relabel a request event as issued by the insecure client; every other
event is untouched. -/
def markInsecure : Event → Event
  | Event.doRequest _ u => Event.doRequest true u
  | e => e

theorem markInsecure_loop : ∀ {l : List Event},
    l.all isLoopEvent = true → l.map markInsecure = l := by
  intro l
  induction l with
  | nil => intro h; rfl
  | cons e t ih =>
    intro h
    simp only [List.all_cons, Bool.and_eq_true] at h
    have he : markInsecure e = e := by
      cases e <;> first | rfl | exact absurd h.1 (by simp [isLoopEvent])
    simp [he, ih h.2]

theorem readLoop_map_markInsecure (tempDest stage : String) (w : ℚ)
    (hasCb : Bool) (dest : String) (total : ℤ) (steps : List ReadStep)
    (d ld : ℤ) (lu : ℕ) :
    (readLoop tempDest stage w hasCb dest total steps d ld lu).1.map
      markInsecure =
      (readLoop tempDest stage w hasCb dest total steps d ld lu).1 :=
  markInsecure_loop (readLoop_all tempDest stage w hasCb dest total steps d ld lu)

theorem rangeEvents_map (r : ℤ) :
    (rangeEvents r).map markInsecure = rangeEvents r := by
  rw [rangeEvents]
  split <;> rfl

theorem attemptCore_insecure_map (dest url stage : String) (w : ℚ)
    (hasCb : Bool) (env : AttemptEnv) (rangeEvs : List Event)
    (resumeFrom : ℤ) (hr : rangeEvs.map markInsecure = rangeEvs) :
    attemptCore true dest url stage w hasCb env rangeEvs resumeFrom =
      ((attemptCore false dest url stage w hasCb env rangeEvs resumeFrom).1.map
        markInsecure,
       (attemptCore false dest url stage w hasCb env rangeEvs resumeFrom).2) := by
  simp only [attemptCore]
  cases hm : env.mkdirErr with
  | some e => rfl
  | none =>
  cases hq : env.reqErr with
  | some e => rfl
  | none =>
  cases hd : env.doErr with
  | some e => simp [List.map_append, markInsecure, hr]
  | none =>
  by_cases hs : env.status ≠ 200 ∧ env.status ≠ 206
  · rw [if_pos hs, if_pos hs]
    simp [List.map_append, markInsecure, hr]
  · rw [if_neg hs, if_neg hs]
    cases ho : env.openErr with
    | some e => simp [List.map_append, markInsecure, hr]
    | none =>
      cases hl : (readLoop (dest ++ ".tmp") stage w hasCb dest
          (env.contentLength + if env.status = 206 then resumeFrom else 0)
          env.steps (if env.status = 206 then resumeFrom else 0)
          (if env.status = 206 then resumeFrom else 0) env.tStart).2 with
      | error e =>
        dsimp only
        simp [List.map_append, markInsecure, hr, readLoop_map_markInsecure]
        split <;> rfl
      | ok u =>
        cases hrr : env.renameErr with
        | some e =>
          dsimp only
          simp [List.map_append, markInsecure, hr, readLoop_map_markInsecure]
          split <;> rfl
        | none =>
          dsimp only
          simp [List.map_append, markInsecure, hr, readLoop_map_markInsecure]
          split <;> rfl

/-- C9: the two attempt procedures are observationally equivalent — on every
input and every client behavior they return the same result and perform the
same trace of effects, differing only in which client issues the HTTP
request (the request event's `insecure` flag). -/
theorem c9_attempt_equivalence (dest url stage : String) (w : ℚ)
    (hasCb : Bool) (env : AttemptEnv) :
    attemptDownloadInsecure dest url stage w hasCb env =
      ((attemptDownload dest url stage w hasCb env).1.map markInsecure,
       (attemptDownload dest url stage w hasCb env).2) := by
  rw [attemptDownloadInsecure_eq_core, attemptDownload_eq_core]
  exact attemptCore_insecure_map dest url stage w hasCb env _ _
    (rangeEvents_map (resumeOf env))

/-! ### The simple entry point is not atomic (C10) -/

/-- Events `DownloadFile`'s read loop can emit: writes straight to the
destination and simple progress callbacks. -/
def simpleLoopEvent (dest : String) : Event → Bool
  | Event.writeBytes p _ => p == dest
  | Event.simpleProgress _ _ _ => true
  | _ => false

theorem simpleLoop_all (dest : String) (hasCb : Bool) (total : ℤ)
    (tStart : ℕ) :
    ∀ (steps : List SimpleStep) (d : ℤ),
      (simpleLoop dest hasCb total tStart steps d).1.all
        (simpleLoopEvent dest) = true := by
  intro steps
  induction steps with
  | nil => intro d; rfl
  | cons step rest ih =>
    intro d
    rw [simpleLoop]
    by_cases hn : 0 < step.n
    · rw [if_pos hn]
      cases hw : step.writeErr with
      | some e => rfl
      | none =>
        cases hr : step.res with
        | eof =>
          simp only [List.all_cons, Bool.and_eq_true]
          refine ⟨by simp [simpleLoopEvent], ?_⟩
          split <;> rfl
        | errR e =>
          simp only [List.all_cons, Bool.and_eq_true]
          refine ⟨by simp [simpleLoopEvent], ?_⟩
          split <;> rfl
        | ok =>
          simp only [List.all_cons, List.all_append, Bool.and_eq_true, ih,
            and_true]
          refine ⟨by simp [simpleLoopEvent], ?_⟩
          split <;> rfl
    · rw [if_neg hn]
      cases hr : step.res with
      | eof => rfl
      | errR e => rfl
      | ok => exact ih d

/-- C10: non-atomicity of the simple `DownloadFile` entry point — it never
sends a Range header, never renames, never opens for append; every file it
creates or writes is the destination itself; only status 200 is accepted;
and once past the checks it creates the destination directly, so a
mid-stream failure leaves the destination in place with the bytes written
so far (the model has no delete/rename events that could remove them). -/
theorem c10_downloadfile_nonatomic (url dest : String) (hasCb : Bool)
    (env : SimpleEnv) :
    (∀ k : ℤ, Event.setRange k ∉ (DownloadFile url dest hasCb env).1) ∧
    (∀ a c : String, Event.renameFile a c ∉ (DownloadFile url dest hasCb env).1) ∧
    (∀ p : String, Event.openAppend p ∉ (DownloadFile url dest hasCb env).1) ∧
    (∀ p, Event.createFile p ∈ (DownloadFile url dest hasCb env).1 → p = dest) ∧
    (∀ p n, Event.writeBytes p n ∈ (DownloadFile url dest hasCb env).1 →
      p = dest) ∧
    (env.mkdirErr = none → env.reqErr = none → env.doErr = none →
      env.status ≠ 200 →
      (DownloadFile url dest hasCb env).2 =
        Except.error ("HTTP error: " ++ toString env.status)) ∧
    (env.mkdirErr = none → env.reqErr = none → env.doErr = none →
      env.status = 200 → env.createErr = none →
      Event.createFile dest ∈ (DownloadFile url dest hasCb env).1) := by
  simp only [DownloadFile]
  cases hm : env.mkdirErr with
  | some e =>
    exact ⟨fun k => List.not_mem_nil _, fun a c => List.not_mem_nil _,
      fun p => List.not_mem_nil _, fun p hp => absurd hp (List.not_mem_nil _),
      fun p n hp => absurd hp (List.not_mem_nil _),
      fun h => Option.noConfusion h, fun h => Option.noConfusion h⟩
  | none =>
  cases hq : env.reqErr with
  | some e =>
    exact ⟨fun k => by simp, fun a c => by simp, fun p => by simp,
      fun p hp => by simp at hp, fun p n hp => by simp at hp,
      fun _ h => Option.noConfusion h, fun _ h => Option.noConfusion h⟩
  | none =>
  cases hd : env.doErr with
  | some e =>
    exact ⟨fun k => by simp, fun a c => by simp, fun p => by simp,
      fun p hp => by simp at hp, fun p n hp => by simp at hp,
      fun _ _ h => Option.noConfusion h, fun _ _ h => Option.noConfusion h⟩
  | none =>
  by_cases hs : env.status ≠ 200
  · rw [if_pos hs]
    exact ⟨fun k => by simp, fun a c => by simp, fun p => by simp,
      fun p hp => by simp at hp, fun p n hp => by simp at hp,
      fun _ _ _ _ => rfl, fun _ _ _ h200 _ => absurd h200 hs⟩
  · rw [if_neg hs]
    cases hc : env.createErr with
    | some e =>
      exact ⟨fun k => by simp, fun a c => by simp, fun p => by simp,
        fun p hp => by simp at hp, fun p n hp => by simp at hp,
        fun _ _ _ hne => absurd (not_not.mp hs) hne,
        fun _ _ _ _ h => Option.noConfusion h⟩
    | none =>
      have hall := simpleLoop_all dest hasCb env.contentLength env.tStart
        env.steps 0
      refine ⟨?_, ?_, ?_, ?_, ?_, fun _ _ _ hne => absurd (not_not.mp hs) hne,
        fun _ _ _ _ _ => by simp⟩
      · intro k hk
        rcases List.mem_append.mp hk with h1 | h2
        · simp at h1
        · exact not_mem_of_all (Event.setRange k) hall rfl h2
      · intro a c hk
        rcases List.mem_append.mp hk with h1 | h2
        · simp at h1
        · exact not_mem_of_all (Event.renameFile a c) hall rfl h2
      · intro p hk
        rcases List.mem_append.mp hk with h1 | h2
        · simp at h1
        · exact not_mem_of_all (Event.openAppend p) hall rfl h2
      · intro p hk
        rcases List.mem_append.mp hk with h1 | h2
        · simp at h1
          exact h1
        · exact absurd (List.all_eq_true.mp hall _ h2) (by simp [simpleLoopEvent])
      · intro p n hk
        rcases List.mem_append.mp hk with h1 | h2
        · simp at h1
        · exact eq_of_beq (List.all_eq_true.mp hall _ h2)

/-- Concrete instance of C10: a mid-stream read error leaves the destination
created and partially written, with no rename anywhere. -/
theorem c10_downloadfile_nonatomic_witness :
    Event.createFile "d" ∈ (DownloadFile "u" "d" false
      { mkdirErr := none, reqErr := none, doErr := none, status := 200,
        contentLength := 9, createErr := none, tStart := 0,
        steps := [⟨4, none, 10, ReadRes.ok⟩,
          ⟨0, none, 20, ReadRes.errR "connection reset"⟩] }).1 ∧
    Event.renameFile "d.tmp" "d" ∉ (DownloadFile "u" "d" false
      { mkdirErr := none, reqErr := none, doErr := none, status := 200,
        contentLength := 9, createErr := none, tStart := 0,
        steps := [⟨4, none, 10, ReadRes.ok⟩,
          ⟨0, none, 20, ReadRes.errR "connection reset"⟩] }).1 ∧
    (DownloadFile "u" "d" false
      { mkdirErr := none, reqErr := none, doErr := none, status := 200,
        contentLength := 9, createErr := none, tStart := 0,
        steps := [⟨4, none, 10, ReadRes.ok⟩,
          ⟨0, none, 20, ReadRes.errR "connection reset"⟩] }).2 =
      Except.error "connection reset" :=
  ⟨(c10_downloadfile_nonatomic "u" "d" false
      { mkdirErr := none, reqErr := none, doErr := none, status := 200,
        contentLength := 9, createErr := none, tStart := 0,
        steps := [⟨4, none, 10, ReadRes.ok⟩,
          ⟨0, none, 20, ReadRes.errR "connection reset"⟩] }).2.2.2.2.2.2
      rfl rfl rfl rfl rfl,
   (c10_downloadfile_nonatomic "u" "d" false
      { mkdirErr := none, reqErr := none, doErr := none, status := 200,
        contentLength := 9, createErr := none, tStart := 0,
        steps := [⟨4, none, 10, ReadRes.ok⟩,
          ⟨0, none, 20, ReadRes.errR "connection reset"⟩] }).2.1 "d.tmp" "d",
   rfl⟩

end HyPrism
